import Mathlib

/-!
Verification development for the budget allocation engine of the
quick-and-dirty top-sheet generator (src/model/budget.py).

Numeric values are modelled as rationals (the source computes with Python
floats; the algebraic relations under scrutiny are exact, so the rational
model captures the intended arithmetic).  Python's built-in round (used by
the source on every derived amount) is round-half-to-even and is modelled
by pyRound below.  Machine strings ("amount", "percentage", "fixed", ...)
are modelled as Lean strings, matching the source's string-tag style.
-/

namespace TopSheet

/-- Python's round: round-half-to-even, as invoked by the source on every
derived currency amount (round(x) with a single argument returns an int). -/
def pyRound (q : ℚ) : ℤ :=
  let f := ⌊q⌋
  if q - f < 1/2 then f
  else if (1 : ℚ)/2 < q - f then f + 1
  else if f % 2 = 0 then f else f + 1

/-- Category, from class Category in src/model/budget.py: name, percentage,
amount, optional amount_override, and lock_type (0 = Unlocked,
1 = Lock Amount, 2 = Lock Percentage, stored as an integer tag). -/
structure Category where
  name : String
  percentage : ℚ
  amount : ℚ
  amount_override : Option ℚ
  lock_type : Nat
deriving DecidableEq, Repr

/-- FeeItem, from class FeeItem in src/model/budget.py: fee_type is
"percentage" or "fixed" (the constructor lower-cases it), value is the
percent value or the fixed amount, computed_amount is derived (0 at
construction). -/
structure FeeItem where
  name : String
  fee_type : String
  value : ℚ
  computed_amount : ℚ
deriving DecidableEq, Repr

/-- Python's str.lower, modelled characterwise on the string's character
list (faithful for the ASCII tags the source compares). -/
def strLower (s : String) : String := String.mk (s.data.map Char.toLower)

/-- Python's str.upper, modelled characterwise. -/
def strUpper (s : String) : String := String.mk (s.data.map Char.toUpper)

/-- Python's str.startswith, modelled on the character lists. -/
def strStartsWith (s pfx : String) : Bool := pfx.data.isPrefixOf s.data

/-- FeeItem constructor, mirroring FeeItem.__init__ (fee_type lower-cased,
computed_amount initialised to 0). -/
def mkFeeItem (name fee_type : String) (value : ℚ) : FeeItem :=
  { name := name, fee_type := strLower fee_type, value := value, computed_amount := 0 }

/-- The engine state, from class BudgetModel in src/model/budget.py.
Groups are (label, category-index list) pairs as in the source.  subtotal
is the derived field recalc assigns. -/
structure BudgetModel where
  grand_total : ℚ
  admin_pct : ℚ
  contingency_pct : ℚ
  fees : List FeeItem
  categories : List Category
  groups : List (String × List Nat)
  over_budget : Bool
  over_budget_rows : List Nat
  import_mode : String
  computed_grand_total : ℚ
  keep_category_amounts : Bool
  subtotal : ℚ
deriving DecidableEq, Repr

/-- Sum of the values of the fixed fees (recalc, percentage-mode subtotal
branch). -/
def fixedFeeTotal (m : BudgetModel) : ℚ :=
  ((m.fees.filter (fun f => f.fee_type == "fixed")).map (fun f => f.value)).sum

/-- Sum of the values of the percentage fees (recalc, percentage-mode
subtotal branch). -/
def totalFeePct (m : BudgetModel) : ℚ :=
  ((m.fees.filter (fun f => f.fee_type == "percentage")).map (fun f => f.value)).sum

/-- Subtotal derivation at the top of BudgetModel.recalc: grand_total when
there are no fees; the sum of category amounts in amount mode; otherwise
the algebraic fee inversion round((grand_total - fixed)/(1 + pct/100)),
or 0 when the denominator is 0. -/
def recalcSubtotal (m : BudgetModel) : ℚ :=
  if m.fees = [] then m.grand_total
  else if m.import_mode = "amount" then
    (m.categories.map (fun c => c.amount)).sum
  else if 1 + totalFeePct m / 100 ≠ 0 then
    ((pyRound ((m.grand_total - fixedFeeTotal m) / (1 + totalFeePct m / 100)) : ℤ) : ℚ)
  else 0

/-- Amount-mode category update: the percentage is derived from the amount
(0 when the subtotal is 0); the amount is left untouched. -/
def amountModePct (st : ℚ) (c : Category) : Category :=
  { c with percentage := if st ≠ 0 then c.amount / st * 100 else 0 }

/-- First percentage-mode pass of recalc over one category: a Lock Amount
category fixes its amount (override if present) and re-derives its
percentage; a Lock Percentage category re-derives its amount; anything
else is untouched. -/
def lockedPass (st : ℚ) (c : Category) : Category :=
  if c.lock_type = 1 then
    let fixed_amt := c.amount_override.getD c.amount
    { c with amount := fixed_amt,
             percentage := if st ≠ 0 then fixed_amt / st * 100 else 0 }
  else if c.lock_type = 2 then
    { c with amount := ((pyRound (st * (c.percentage / 100)) : ℤ) : ℚ) }
  else c

/-- A category is locked when its lock_type is 1 (Lock Amount) or
2 (Lock Percentage), as tested by lock_type in [1, 2] in the source. -/
def isLocked (c : Category) : Bool := c.lock_type == 1 || c.lock_type == 2

/-- The fixed_percentage_total accumulator of recalc: the percentages of
the locked categories after the first percentage-mode pass. -/
def fixedPctTotal (cats : List Category) : ℚ :=
  ((cats.filter isLocked).map (fun c => c.percentage)).sum

/-- Assign a freshly redistributed percentage to an unlocked category and
derive its amount, as in the redistribution loop of recalc. -/
def setUnlockedPct (st p : ℚ) (c : Category) : Category :=
  { c with percentage := p, amount := ((pyRound (st * (p / 100)) : ℤ) : ℚ) }

/-- Percentage-mode redistribution over the unlocked categories: the
available percentage (100 minus the locked total) is split proportionally
to the current unlocked percentages, or equally when their sum is ≤ 0.
Locked categories pass through untouched; nothing happens when there is no
unlocked category. -/
def redistribute (st : ℚ) (cats1 : List Category) : List Category :=
  let unlocked := cats1.filter (fun c => c.lock_type == 0)
  let available_pct := 100 - fixedPctTotal cats1
  if 0 < unlocked.length then
    let sum_desired := (unlocked.map (fun c => c.percentage)).sum
    if sum_desired ≤ 0 then
      cats1.map (fun c => if c.lock_type == 0 then
        setUnlockedPct st (available_pct / (unlocked.length : ℚ)) c else c)
    else
      cats1.map (fun c => if c.lock_type == 0 then
        setUnlockedPct st (c.percentage / sum_desired * available_pct) c else c)
  else cats1

/-- Category recomputation of recalc.  The source's keep-amounts branch and
its plain amount-mode branch perform the same per-category update; both are
kept to mirror the source's structure.  Any import_mode other than
"amount" takes the percentage-mode path, as in the source's if/else. -/
def recalcCategories (m : BudgetModel) : List Category :=
  let st := recalcSubtotal m
  if m.import_mode = "amount" ∧ m.keep_category_amounts then
    m.categories.map (amountModePct st)
  else if m.import_mode = "amount" then
    m.categories.map (amountModePct st)
  else
    redistribute st (m.categories.map (lockedPass st))

/-- Fee recomputation of recalc: a percentage fee's computed_amount is
round(subtotal * value / 100); a fixed fee's is its value. -/
def feeUpdate (st : ℚ) (f : FeeItem) : FeeItem :=
  if f.fee_type = "percentage" then
    { f with computed_amount := ((pyRound (st * (f.value / 100)) : ℤ) : ℚ) }
  else { f with computed_amount := f.value }

/-- All fees after the fee recomputation pass of recalc. -/
def recalcFees (m : BudgetModel) : List FeeItem :=
  m.fees.map (feeUpdate (recalcSubtotal m))

/-- The computed grand total of recalc: subtotal plus the computed fee
amounts when fees exist, otherwise the subtotal itself. -/
def recalcCGT (m : BudgetModel) : ℚ :=
  if m.fees ≠ [] then
    recalcSubtotal m + ((recalcFees m).map (fun f => f.computed_amount)).sum
  else recalcSubtotal m

/-- BudgetModel.check_over_budget: with tolerance 1, flag over-budget and
record the indices of all locked categories when the locked amounts exceed
subtotal + 1; otherwise clear both fields. -/
def check_over_budget (m : BudgetModel) : BudgetModel :=
  let fixed_total := ((m.categories.filter isLocked).map (fun c => c.amount)).sum
  if fixed_total > m.subtotal + 1 then
    { m with over_budget := true,
             over_budget_rows :=
               (m.categories.enum.filter (fun p => isLocked p.2)).map Prod.fst }
  else
    { m with over_budget := false, over_budget_rows := [] }

/-- The derived-field assignments of BudgetModel.recalc before the final
over-budget check. -/
def recalcMain (m : BudgetModel) : BudgetModel :=
  { m with subtotal := recalcSubtotal m,
           categories := recalcCategories m,
           fees := recalcFees m,
           computed_grand_total := recalcCGT m }

/-- BudgetModel.recalc: recompute all derived fields, then run the
over-budget check. -/
def recalc (m : BudgetModel) : BudgetModel := check_over_budget (recalcMain m)

/-- In-place update of the i-th element of a list, as the source's indexed
assignment self.categories[index] (out-of-range indices, which raise in
Python, leave the list unchanged here; all theorems use in-range indices). -/
def updateAt : List Category → Nat → (Category → Category) → List Category
  | [], _, _ => []
  | c :: cs, 0, f => f c :: cs
  | c :: cs, n + 1, f => c :: updateAt cs n f

/-- The per-category effect of update_category_percentage: store the
percentage and clear the override unless the category is Lock Percentage. -/
def pctEditFn (p : ℚ) (c : Category) : Category :=
  { c with percentage := p,
           amount_override := if c.lock_type ≠ 2 then none else c.amount_override }

/-- The per-category effect of update_category_amount: store the override
and derive the percentage from the current (pre-recalc) subtotal. -/
def amountEditFn (m : BudgetModel) (a : ℚ) (c : Category) : Category :=
  { c with amount_override := some a,
           percentage := if m.subtotal ≠ 0 then a / m.subtotal * 100 else 0 }

/-- BudgetModel.update_category_percentage: clamp to ≥ 0, store the
percentage, clear the override unless the category is Lock Percentage,
clear the keep flag, recalc. -/
def update_category_percentage (m : BudgetModel) (index : Nat) (new_percentage : ℚ) :
    BudgetModel :=
  recalc { m with
             categories := updateAt m.categories index (pctEditFn (max new_percentage 0)),
             keep_category_amounts := false }

/-- BudgetModel.update_category_amount: clamp to ≥ 0, store the override,
derive the percentage from the current (pre-recalc) subtotal, clear the
keep flag, recalc. -/
def update_category_amount (m : BudgetModel) (index : Nat) (new_amount : ℚ) :
    BudgetModel :=
  recalc { m with
             categories := updateAt m.categories index (amountEditFn m (max new_amount 0)),
             keep_category_amounts := false }

/-! Persisted-document deserialization (BudgetModel.from_dict and the
from_dict classmethods of Category and FeeItem).  The document fields read
through data.get with a default are modelled as Option fields; name and
percentage of a category are accessed unconditionally in the source, so
they are plain fields.  The document's groups entry (written by to_dict)
is never read by from_dict and is therefore not part of this record. -/

/-- One category record of the persisted document. -/
structure CatDoc where
  name : String
  percentage : ℚ
  amount : Option ℚ
  amount_override : Option ℚ
  lock_type : Option Nat
deriving DecidableEq, Repr

/-- Category.from_dict: defaults amount to 0 and lock_type to 0. -/
def catFromDict (d : CatDoc) : Category :=
  { name := d.name, percentage := d.percentage,
    amount := d.amount.getD 0, amount_override := d.amount_override,
    lock_type := d.lock_type.getD 0 }

/-- One fee record of the persisted document. -/
structure FeeDoc where
  name : String
  fee_type : Option String
  value : Option ℚ
deriving DecidableEq, Repr

/-- FeeItem.from_dict: defaults fee_type to "percentage" and value to 0. -/
def feeFromDict (d : FeeDoc) : FeeItem :=
  mkFeeItem d.name (d.fee_type.getD "percentage") (d.value.getD 0)

/-- The persisted document read by BudgetModel.from_dict. -/
structure ModelDoc where
  grand_total : Option ℚ
  admin_pct : Option ℚ
  contingency_pct : Option ℚ
  categories : Option (List CatDoc)
  fees : Option (List FeeDoc)
  import_mode : Option String
deriving DecidableEq, Repr

/-- The field assignments of BudgetModel.from_dict before its final
recalc call.  Note the source assigns grand_total, admin_pct,
contingency_pct, categories, fees and import_mode only: groups and
keep_category_amounts retain their prior values. -/
def loadState (m : BudgetModel) (d : ModelDoc) : BudgetModel :=
  { m with grand_total := d.grand_total.getD 0,
           admin_pct := d.admin_pct.getD 0,
           contingency_pct := d.contingency_pct.getD 0,
           categories := (d.categories.getD []).map catFromDict,
           fees := (d.fees.getD []).map feeFromDict,
           import_mode := d.import_mode.getD "amount" }

/-- BudgetModel.from_dict: install the document fields, then recalc. -/
def from_dict (m : BudgetModel) (d : ModelDoc) : BudgetModel :=
  recalc (loadState m d)

/-! Spreadsheet import (BudgetModel.import_from_excel).  A Row models one
spreadsheet data row after the per-cell handling the source performs
upstream of the scan logic: rows whose first cell is falsy are skipped
before this list, group and description carry the stripped strings, and
amount and percentage carry the parsed numbers (a cell that fails to parse
is 0, matching the except branches). -/

/-- One spreadsheet data row, post cell parsing. -/
structure Row where
  group : String
  desc : String
  amount : ℚ
  percentage : ℚ
deriving DecidableEq, Repr

/-- A row whose group label starts with "FEES" case-insensitively is a fee
definition (group.upper().startswith("FEES")). -/
def isFeeRow (r : Row) : Bool := strStartsWith (strUpper r.group) "FEES"

/-- Build the FeeItem of a fee row: a zero amount means a percentage fee
whose value is the percentage cell (scaled by 100 when it is below 1);
otherwise a fixed fee whose value is the amount cell. -/
def parseFee (r : Row) : FeeItem :=
  if r.amount = 0 then
    mkFeeItem r.desc "percentage" (if r.percentage < 1 then r.percentage * 100 else r.percentage)
  else mkFeeItem r.desc "fixed" r.amount

/-- Build the Category of a non-fee row: Category(desc, percentage) then
cat.amount = amount. -/
def mkCatFromRow (r : Row) : Category :=
  { name := r.desc, percentage := r.percentage, amount := r.amount,
    amount_override := none, lock_type := 0 }

/-- The import mode a non-fee row's amount implies: a positive amount means
amount mode, anything else percentage mode. -/
def modeOfAmount (a : ℚ) : String :=
  if 0 < a then "amount" else "percentage"

/-- Append a category index to its group, creating the group at the end of
the order on first sight (the groups_dict and group_order bookkeeping of
the source, collapsed to an ordered association list). -/
def addToGroup (gs : List (String × List Nat)) (g : String) (i : Nat) :
    List (String × List Nat) :=
  if gs.any (fun p => p.1 == g) then
    gs.map (fun p => if p.1 == g then (p.1, p.2 ++ [i]) else p)
  else gs ++ [(g, [i])]

/-- The loop state of the import scan: fees accumulated so far (the source
clears self.fees before the loop and appends to it), the pending category
list, the pending groups, and the detected mode. -/
structure ScanState where
  fees : List FeeItem
  cats : List Category
  groups : List (String × List Nat)
  mode : Option String
deriving DecidableEq, Repr

/-- The scan's initial state: fees just cleared, nothing accumulated. -/
def initScan : ScanState := ⟨[], [], [], none⟩

/-- The row scan of import_from_excel.  A fee row appends its FeeItem; the
first non-fee row fixes the detected mode; every later non-fee row must
agree with it or the scan stops with the mixed-mode ValueError, surfacing
the loop state at that moment (the source raises, so self.fees keeps the
fees appended so far while categories and groups were not yet assigned). -/
def scanRows : ScanState → List Row → Except ScanState ScanState
  | st, [] => Except.ok st
  | st, r :: rs =>
    if isFeeRow r then
      scanRows { st with fees := st.fees ++ [parseFee r] } rs
    else
      match st.mode with
      | none =>
          scanRows { st with mode := some (modeOfAmount r.amount),
                             cats := st.cats ++ [mkCatFromRow r],
                             groups := addToGroup st.groups r.group st.cats.length } rs
      | some md =>
          if modeOfAmount r.amount ≠ md then Except.error st
          else
            scanRows { st with cats := st.cats ++ [mkCatFromRow r],
                               groups := addToGroup st.groups r.group st.cats.length } rs

/-- The fees contributed by the fee rows of a row list, in order. -/
def feesIn (rows : List Row) : List FeeItem :=
  (rows.filter isFeeRow).map parseFee

/-- Result of an import: the new engine state, or the engine state left
behind by the mixed-mode ValueError. -/
inductive ImportResult where
  | ok (m : BudgetModel)
  | mixedModeError (m : BudgetModel)
deriving DecidableEq, Repr

/-- Post-import fee conversion when amount mode was detected: a fixed fee
becomes a percentage fee of the category total (the source divides by
cat_total; cat_total is positive whenever this code runs, see the C10
theorem, so the division is well defined). -/
def feeConvert (cat_total : ℚ) (f : FeeItem) : FeeItem :=
  if f.fee_type = "fixed" then
    { f with value := f.value / cat_total * 100, fee_type := "percentage" }
  else f

/-- The engine state after a successful amount-mode scan, before the final
recalc: the scanned groups are installed, category percentages become
amount shares of cat_total (when it is positive), fixed fees are converted
to percentage fees of cat_total, grand_total becomes cat_total plus the
fee contributions, the keep flag is set and the mode forced to
percentage.  (The source first assigns self.categories/fees/groups and
then overwrites categories, fees and grand_total inside the
mode_detected == "amount" branch; the two assignments are collapsed
here.) -/
def importedState (m : BudgetModel) (st : ScanState) : BudgetModel :=
  let cat_total := (st.cats.map (fun c => c.amount)).sum
  let cats2 := if 0 < cat_total
    then st.cats.map (fun c => { c with percentage := c.amount / cat_total * 100 })
    else st.cats
  let fees2 := st.fees.map (feeConvert cat_total)
  { m with categories := cats2,
           fees := fees2,
           groups := st.groups,
           grand_total := cat_total +
             ((fees2.filter (fun f => f.fee_type == "percentage")).map
               (fun f => f.value / 100 * cat_total)).sum,
           keep_category_amounts := true,
           import_mode := "percentage" }

/-- BudgetModel.import_from_excel over the parsed rows: run the scan; on a
mixed-mode error the engine keeps its categories and groups and the fee
list scanned so far; on success install the scanned collections, then, if
amount mode was detected, apply the amount-mode normalization of
importedState, forcing percentage mode either way, and recalc. -/
def import_from_excel (m : BudgetModel) (rows : List Row) : ImportResult :=
  match scanRows initScan rows with
  | Except.error st => ImportResult.mixedModeError { m with fees := st.fees }
  | Except.ok st =>
    if st.mode = some "amount" then
      ImportResult.ok (recalc (importedState m st))
    else
      ImportResult.ok (recalc { m with fees := st.fees, categories := st.cats,
                                       groups := st.groups,
                                       import_mode := "percentage" })

/-- The success payload of an import, if any. -/
def importOk : ImportResult → Option BudgetModel
  | ImportResult.ok m => some m
  | ImportResult.mixedModeError _ => none

/-! Table projection (BudgetModel.get_table_data).  The source's dict rows
are modelled as one record whose optional fields are none/false when the
source's dict omits the key.  BudgetModel.get_group_total indexes
self.categories without a bound check (an out-of-range group index raises
IndexError in Python); it is modelled with a 0 default, and the theorems
about the projection assume in-range group indices. -/

/-- BudgetModel.get_group_total: sum of the member categories' amounts. -/
def get_group_total (m : BudgetModel) (indices : List Nat) : ℚ :=
  (indices.map (fun i => ((m.categories.get? i).map (fun c => c.amount)).getD 0)).sum

/-- BudgetModel.get_group_percentage: group amount over subtotal (0 when
the subtotal is 0). -/
def get_group_percentage (m : BudgetModel) (indices : List Nat) : ℚ :=
  if m.subtotal ≠ 0 then get_group_total m indices / m.subtotal * 100 else 0

/-- One projected table row (the source's row dicts; keys a given row kind
does not carry are none/false here). -/
structure TableRow where
  row_type : String
  description : String
  amount : ℚ
  percentage : Option ℚ
  lock_type : Option Nat
  cat_index : Option Nat
  group_label : Option String
  fee_index : Option Nat
  editable : Bool
deriving DecidableEq, Repr

/-- The category row emitted for category c at index idx. -/
def catRowOf (idx : Nat) (c : Category) : TableRow :=
  { row_type := "category", description := c.name, amount := c.amount,
    percentage := some c.percentage, lock_type := some c.lock_type,
    cat_index := some idx, group_label := none, fee_index := none,
    editable := false }

/-- The group-total row emitted after a group's member rows. -/
def groupTotalRowOf (m : BudgetModel) (g : String × List Nat) : TableRow :=
  { row_type := "group_total", description := g.1,
    amount := get_group_total m g.2,
    percentage := some (get_group_percentage m g.2), lock_type := none,
    cat_index := none, group_label := some g.1, fee_index := none,
    editable := false }

/-- The SUBTOTAL row. -/
def subtotalRowOf (m : BudgetModel) : TableRow :=
  { row_type := "subtotal", description := "SUBTOTAL", amount := m.subtotal,
    percentage := none, lock_type := none, cat_index := none,
    group_label := none, fee_index := none, editable := false }

/-- The row emitted for fee f at fee index i (percentage fees show their
computed amount and their value; fixed fees show their value and a derived
percentage, 0 unless the subtotal is positive). -/
def feeRowOf (m : BudgetModel) (i : Nat) (f : FeeItem) : TableRow :=
  if f.fee_type = "percentage" then
    { row_type := "fee", description := f.name, amount := f.computed_amount,
      percentage := some f.value, lock_type := none, cat_index := none,
      group_label := none, fee_index := some i, editable := true }
  else
    { row_type := "fee", description := f.name, amount := f.value,
      percentage := some (if 0 < m.subtotal then f.value / m.subtotal * 100 else 0),
      lock_type := none, cat_index := none, group_label := none,
      fee_index := some i, editable := true }

/-- The GRAND TOTAL row. -/
def grandRowOf (m : BudgetModel) : TableRow :=
  { row_type := "grand_total", description := "GRAND TOTAL",
    amount := m.computed_grand_total, percentage := none, lock_type := none,
    cat_index := none, group_label := none, fee_index := none,
    editable := false }

/-- One entry of the group mapping: the positions of the member rows and
the position of the group-total row. -/
structure GroupEntry where
  member_rows : List Nat
  total_row : Nat
deriving DecidableEq, Repr

/-- Dictionary-style insertion into the group mapping: a repeated label
overwrites its previous entry, a fresh label is appended. -/
def mapInsert (gm : List (String × GroupEntry)) (k : String) (v : GroupEntry) :
    List (String × GroupEntry) :=
  if gm.any (fun p => p.1 == k) then
    gm.map (fun p => if p.1 == k then (k, v) else p)
  else gm ++ [(k, v)]

/-- The inner loop of get_table_data over one group's member indices:
record the running position, then append the category row; an
out-of-range index is skipped. -/
def memberFold (m : BudgetModel) : (List Nat × List TableRow) → Nat →
    (List Nat × List TableRow)
  | (mr, d), idx =>
    match m.categories.get? idx with
    | some c => (mr ++ [d.length], d ++ [catRowOf idx c])
    | none => (mr, d)

/-- The outer loop of get_table_data over one group: emit the member rows,
then the group-total row, and insert the mapping entry. -/
def groupStep (m : BudgetModel) :
    (List TableRow × List (String × GroupEntry)) → (String × List Nat) →
    (List TableRow × List (String × GroupEntry))
  | (data, gm), g =>
    let p := g.2.foldl (memberFold m) ([], data)
    (p.2 ++ [groupTotalRowOf m g], mapInsert gm g.1 ⟨p.1, p.2.length⟩)

/-- BudgetModel.get_table_data: the grouped category rows with group-total
rows, the subtotal row, one row per fee, the grand-total row, and the
group mapping. -/
def get_table_data (m : BudgetModel) :
    List TableRow × List (String × GroupEntry) :=
  let p := m.groups.foldl (groupStep m) ([], [])
  (p.1 ++ [subtotalRowOf m] ++ (m.fees.enum.map (fun q => feeRowOf m q.1 q.2))
       ++ [grandRowOf m], p.2)

/-- The category row a group member index contributes, with a placeholder
for an out-of-range index (the theorems below restrict to in-range
indices). -/
def catRowAt (m : BudgetModel) (i : Nat) : TableRow :=
  match m.categories.get? i with
  | some c => catRowOf i c
  | none => subtotalRowOf m

/-- Closed form of the block of rows one group contributes. -/
def blockOf (m : BudgetModel) (g : String × List Nat) : List TableRow :=
  g.2.map (catRowAt m) ++ [groupTotalRowOf m g]

/-- Closed form of the group mapping produced for a group list, given the
number of table rows already emitted. -/
def entriesFrom (m : BudgetModel) : Nat → List (String × List Nat) →
    List (String × GroupEntry)
  | _, [] => []
  | base, g :: gs =>
      (g.1, ⟨(List.range g.2.length).map (fun j => base + j), base + g.2.length⟩)
        :: entriesFrom m (base + g.2.length + 1) gs

/-! Concrete engine states and spreadsheets used by the witnesses and
counterexamples below. -/

/-- A baseline engine state to build concrete examples from. -/
def baseModel : BudgetModel :=
  { grand_total := 0, admin_pct := 5, contingency_pct := 10, fees := [],
    categories := [], groups := [], over_budget := false,
    over_budget_rows := [], import_mode := "amount",
    computed_grand_total := 0, keep_category_amounts := false, subtotal := 0 }

/-- The fee-inversion scenario of the spec: grand total 1100, one
percentage fee of 10, percentage mode, no locked categories. -/
def demoC2 : BudgetModel :=
  { baseModel with
      grand_total := 1100,
      fees := [⟨"Fee", "percentage", 10, 0⟩],
      categories := [⟨"A", 60, 0, none, 0⟩, ⟨"B", 40, 0, none, 0⟩],
      import_mode := "percentage" }

/-- A second fee-inversion state, used by the C2 witness. -/
def demoC2W : BudgetModel :=
  { baseModel with
      grand_total := 210,
      fees := [⟨"Fee", "percentage", 5, 0⟩],
      import_mode := "percentage" }

/-- Percentage-mode state with one Lock Percentage category at 20 and two
unlocked categories, used by the C1 witness. -/
def demoC1 : BudgetModel :=
  { baseModel with
      grand_total := 1000,
      categories := [⟨"L", 20, 0, none, 2⟩, ⟨"U1", 30, 0, none, 0⟩,
                     ⟨"U2", 50, 0, none, 0⟩],
      import_mode := "percentage" }

/-- Amount-mode state with one category of amount 200 under subtotal 1000,
refuting the unconditional amount/percentage duality claim. -/
def demoC8 : BudgetModel :=
  { baseModel with
      grand_total := 1000,
      subtotal := 1000,
      categories := [⟨"A", 20, 200, none, 0⟩] }

/-- Percentage-mode state with a Lock Amount category and an unlocked
category, used by the C8 witness. -/
def demoC8W : BudgetModel :=
  { baseModel with
      grand_total := 1000,
      subtotal := 1000,
      import_mode := "percentage",
      categories := [⟨"A", 50, 500, none, 1⟩, ⟨"B", 50, 0, none, 2⟩] }

/-- A small persisted document used by the C6 counterexample. -/
def demoDoc : ModelDoc := ⟨some 100, none, none, some [], some [], some "amount"⟩

/-- Engine state with a prior group list, C6 counterexample. -/
def demoC6a : BudgetModel := { baseModel with groups := [("OLD A", [0])] }

/-- The same engine state with a different prior group list. -/
def demoC6b : BudgetModel := { baseModel with groups := [("OLD B", [1])] }

/-- The invariant the import scan maintains: before the first non-fee row
the category list is empty; scanned categories are unlocked with no
override; scanned fees are percentage or fixed; and in amount mode every
scanned category has a positive amount and at least one exists. -/
def scanInv (st : ScanState) : Prop :=
  (st.mode = none → st.cats = [])
  ∧ (∀ c ∈ st.cats, c.lock_type = 0 ∧ c.amount_override = none)
  ∧ (∀ f ∈ st.fees, f.fee_type = "percentage" ∨ f.fee_type = "fixed")
  ∧ (st.mode = some "amount" → st.cats ≠ [] ∧ ∀ c ∈ st.cats, 0 < c.amount)

/-- A one-row amount-mode spreadsheet, C10 witness. -/
def demoRows10 : List Row := [⟨"G", "A", 5, 0⟩]

/-- A spreadsheet whose first category row is amount-driven, with a later
percentage-only category row and a fee row before the failure, used by
C3. -/
def demoRows3 : List Row :=
  [⟨"FEES", "F", 0, 5⟩, ⟨"G", "A", 10, 0⟩, ⟨"G", "B", 0, 20⟩]

/-- A one-row amount-mode spreadsheet with the fractional amount 1/2, the
C4 counterexample input. -/
def demoRows4 : List Row := [⟨"G", "A", 1/2, 0⟩]

/-- An amount-mode spreadsheet with integer amounts 600 and 400 and one
10-percent fee row, the C4 witness input. -/
def demoRows4W : List Row :=
  [⟨"G", "A", 600, 0⟩, ⟨"G", "B", 400, 0⟩, ⟨"FEES", "F", 0, 10⟩]

/-- The percentage the redistribution loop assigns to an unlocked
category of l: the equal split when the unlocked percentages sum to ≤ 0,
else the proportional share (an analysis abbreviation for the two
branches of redistribute). -/
def newPct (l : List Category) (c : Category) : ℚ :=
  let unlocked := l.filter (fun d => d.lock_type == 0)
  let available_pct := 100 - fixedPctTotal l
  let sum_desired := (unlocked.map (fun d => d.percentage)).sum
  if sum_desired ≤ 0 then available_pct / (unlocked.length : ℚ)
  else c.percentage / sum_desired * available_pct

/-- Percentage-mode state whose locked percentage exceeds 100, on which
recalc is not idempotent. -/
def demoC7 : BudgetModel :=
  { baseModel with
      grand_total := 100,
      import_mode := "percentage",
      categories := [⟨"L", 150, 0, none, 2⟩, ⟨"U1", 10, 0, none, 0⟩,
                     ⟨"U2", 40, 0, none, 0⟩] }

/-- Percentage-mode state with locked percentage within 100, C7 witness. -/
def demoC7W : BudgetModel :=
  { baseModel with
      grand_total := 1000,
      import_mode := "percentage",
      categories := [⟨"A", 30, 0, none, 0⟩, ⟨"B", 70, 0, none, 0⟩] }

/-- Two categories but only one covered by a group: C9 counterexample. -/
def demoC9 : BudgetModel :=
  { baseModel with
      categories := [⟨"A", 50, 0, none, 0⟩, ⟨"B", 50, 0, none, 0⟩],
      groups := [("G", [0])] }

/-- Two categories fully covered by two groups with distinct labels, plus
one fee: C9 witness. -/
def demoC9W : BudgetModel :=
  { baseModel with
      categories := [⟨"A", 50, 100, none, 0⟩, ⟨"B", 50, 100, none, 0⟩],
      groups := [("G1", [0]), ("G2", [1])],
      fees := [⟨"F", "fixed", 10, 10⟩] }

/-! Theorems.  First the pyRound evaluation rules. -/

/-- Evaluation rule for pyRound below the half point. -/
theorem pyRound_eq_of_lt_half (q : ℚ) (n : ℤ) (h1 : (n : ℚ) ≤ q)
    (h2 : q < (n : ℚ) + 1/2) : pyRound q = n := by
  have hf : ⌊q⌋ = n := Int.floor_eq_iff.mpr ⟨h1, by linarith⟩
  unfold pyRound
  rw [hf]
  rw [if_pos (by linarith)]

/-- Evaluation rule for pyRound above the half point. -/
theorem pyRound_eq_of_gt_half (q : ℚ) (n : ℤ) (h1 : (n : ℚ) + 1/2 < q)
    (h2 : q < (n : ℚ) + 1) : pyRound q = n + 1 := by
  have hf : ⌊q⌋ = n := Int.floor_eq_iff.mpr ⟨by linarith, by linarith⟩
  unfold pyRound
  rw [hf]
  rw [if_neg (by linarith), if_pos (by linarith)]

/-- Evaluation rule for pyRound at the half point with even floor. -/
theorem pyRound_eq_half_even (q : ℚ) (n : ℤ) (h1 : q = (n : ℚ) + 1/2)
    (h2 : n % 2 = 0) : pyRound q = n := by
  have hf : ⌊q⌋ = n := Int.floor_eq_iff.mpr ⟨by linarith, by linarith⟩
  unfold pyRound
  rw [hf]
  rw [if_neg (by linarith), if_neg (by linarith), if_pos h2]

/-- Evaluation rule for pyRound at the half point with odd floor. -/
theorem pyRound_eq_half_odd (q : ℚ) (n : ℤ) (h1 : q = (n : ℚ) + 1/2)
    (h2 : ¬ n % 2 = 0) : pyRound q = n + 1 := by
  have hf : ⌊q⌋ = n := Int.floor_eq_iff.mpr ⟨by linarith, by linarith⟩
  unfold pyRound
  rw [hf]
  rw [if_neg (by linarith), if_neg (by linarith), if_neg h2]

/-- pyRound is the identity on integers. -/
@[simp] theorem pyRound_intCast (n : ℤ) : pyRound ((n : ℤ) : ℚ) = n :=
  pyRound_eq_of_lt_half _ n (by norm_num) (by norm_num)

@[simp] theorem pyRound_natCast (n : ℕ) : pyRound ((n : ℕ) : ℚ) = n := by
  have := pyRound_intCast (n : ℤ)
  push_cast at this
  exact_mod_cast this

@[simp] theorem pyRound_zero : pyRound (0 : ℚ) = 0 := by
  have := pyRound_intCast 0
  norm_num at this
  exact this

@[simp] theorem pyRound_one : pyRound (1 : ℚ) = 1 := by
  have := pyRound_intCast 1
  norm_num at this
  exact this

@[simp] theorem pyRound_ofNat (n : ℕ) [n.AtLeastTwo] :
    pyRound (OfNat.ofNat n : ℚ) = OfNat.ofNat n := by
  exact_mod_cast pyRound_natCast n

/-! General list toolkit used by the theorems below. -/

/-- Mapping a function that fixes every member of a list is the identity. -/
theorem mapMemId {α : Type} (f : α → α) (l : List α) (h : ∀ c ∈ l, f c = c) :
    l.map f = l := by
  rw [List.map_congr_left h]
  exact List.map_id l

/-- Filtering after mapping a predicate-preserving function commutes. -/
theorem filterMapComm {α : Type} (f : α → α) (p : α → Bool)
    (hp : ∀ c, p (f c) = p c) (l : List α) :
    (l.map f).filter p = (l.filter p).map f := by
  rw [List.filter_map]
  congr 1
  exact List.filter_congr (fun c _ => hp c)

/-- A sum over a list splits along a Boolean predicate. -/
theorem sumSplit {α : Type} (p : α → Bool) (f : α → ℚ) :
    ∀ l : List α,
      (l.map f).sum
        = ((l.filter p).map f).sum + ((l.filter (fun c => !(p c))).map f).sum
  | [] => by simp
  | c :: cs => by
    have ih := sumSplit p f cs
    by_cases h : p c
    · simp only [List.map_cons, List.sum_cons, List.filter_cons, h,
        Bool.not_true, if_pos, ih]
      simp
      ring
    · simp only [List.map_cons, List.sum_cons, List.filter_cons,
        Bool.of_not_eq_true h, Bool.not_false, ih]
      simp
      ring

/-- Sum of a constant map. -/
theorem sumMapConst {α : Type} (l : List α) (a : ℚ) :
    (l.map (fun _ => a)).sum = l.length * a := by
  rw [show (fun _ : α => a) = Function.const α a from rfl, List.map_const,
    List.sum_replicate, nsmul_eq_mul]

/-- The indices of the entries of a list satisfying a predicate, read off
enumFrom, expressed by positions into the list. -/
theorem enumFromFilterMap {α : Type} (q : α → Bool) :
    ∀ (l : List α) (n : Nat),
      ((List.enumFrom n l).filter (fun p => q p.2)).map Prod.fst
        = ((List.range l.length).filter
            (fun j => (l[j]?.map q).getD false)).map (fun j => n + j)
  | [], _ => by simp
  | c :: cs, n => by
    have ih := enumFromFilterMap q cs (n + 1)
    have e1 : (List.filter (fun j => ((c :: cs)[j]?.map q).getD false)
          (List.map Nat.succ (List.range cs.length)))
        = List.map Nat.succ
            (List.filter (fun j => (cs[j]?.map q).getD false)
              (List.range cs.length)) := by
      rw [List.filter_map]
      congr 1
      refine List.filter_congr (fun j _ => ?_)
      simp only [Function.comp_apply, List.getElem?_cons_succ]
    have e2 : List.map (fun j => n + j)
          (List.map Nat.succ
            (List.filter (fun j => (cs[j]?.map q).getD false)
              (List.range cs.length)))
        = ((List.enumFrom (n + 1) cs).filter (fun p => q p.2)).map Prod.fst := by
      rw [List.map_map, ih]
      refine (List.map_congr_left (fun a _ => ?_)).symm
      simp only [Function.comp_apply]
      omega
    have hz : ((c :: cs)[(0 : Nat)]?.map q).getD false = q c := by
      simp only [List.getElem?_cons_zero]
      rfl
    simp only [List.length_cons, List.range_succ_eq_map, List.enumFrom_cons,
      List.filter_cons, List.map_cons, hz]
    by_cases h : q c
    · rw [if_pos h, if_pos h, List.map_cons, List.map_cons, e1, e2]
      norm_num
    · rw [if_neg h, if_neg h, e1, e2]

/-! Projection lemmas: which fields recalc and check_over_budget write. -/

@[simp] theorem check_over_budget_grand_total (m : BudgetModel) :
    (check_over_budget m).grand_total = m.grand_total := by
  simp only [check_over_budget]; split <;> rfl

@[simp] theorem check_over_budget_subtotal (m : BudgetModel) :
    (check_over_budget m).subtotal = m.subtotal := by
  simp only [check_over_budget]; split <;> rfl

@[simp] theorem check_over_budget_categories (m : BudgetModel) :
    (check_over_budget m).categories = m.categories := by
  simp only [check_over_budget]; split <;> rfl

@[simp] theorem check_over_budget_fees (m : BudgetModel) :
    (check_over_budget m).fees = m.fees := by
  simp only [check_over_budget]; split <;> rfl

@[simp] theorem check_over_budget_groups (m : BudgetModel) :
    (check_over_budget m).groups = m.groups := by
  simp only [check_over_budget]; split <;> rfl

@[simp] theorem check_over_budget_import_mode (m : BudgetModel) :
    (check_over_budget m).import_mode = m.import_mode := by
  simp only [check_over_budget]; split <;> rfl

@[simp] theorem check_over_budget_keep (m : BudgetModel) :
    (check_over_budget m).keep_category_amounts = m.keep_category_amounts := by
  simp only [check_over_budget]; split <;> rfl

@[simp] theorem check_over_budget_cgt (m : BudgetModel) :
    (check_over_budget m).computed_grand_total = m.computed_grand_total := by
  simp only [check_over_budget]; split <;> rfl

@[simp] theorem check_over_budget_admin (m : BudgetModel) :
    (check_over_budget m).admin_pct = m.admin_pct := by
  simp only [check_over_budget]; split <;> rfl

@[simp] theorem check_over_budget_contingency (m : BudgetModel) :
    (check_over_budget m).contingency_pct = m.contingency_pct := by
  simp only [check_over_budget]; split <;> rfl

@[simp] theorem recalc_grand_total (m : BudgetModel) :
    (recalc m).grand_total = m.grand_total := by
  simp [recalc, recalcMain]

@[simp] theorem recalc_subtotal (m : BudgetModel) :
    (recalc m).subtotal = recalcSubtotal m := by
  simp [recalc, recalcMain]

@[simp] theorem recalc_categories (m : BudgetModel) :
    (recalc m).categories = recalcCategories m := by
  simp [recalc, recalcMain]

@[simp] theorem recalc_fees (m : BudgetModel) :
    (recalc m).fees = recalcFees m := by
  simp [recalc, recalcMain]

@[simp] theorem recalc_cgt (m : BudgetModel) :
    (recalc m).computed_grand_total = recalcCGT m := by
  simp [recalc, recalcMain]

@[simp] theorem recalc_groups (m : BudgetModel) :
    (recalc m).groups = m.groups := by
  simp [recalc, recalcMain]

@[simp] theorem recalc_import_mode (m : BudgetModel) :
    (recalc m).import_mode = m.import_mode := by
  simp [recalc, recalcMain]

@[simp] theorem recalc_keep (m : BudgetModel) :
    (recalc m).keep_category_amounts = m.keep_category_amounts := by
  simp [recalc, recalcMain]

@[simp] theorem recalc_admin (m : BudgetModel) :
    (recalc m).admin_pct = m.admin_pct := by
  simp [recalc, recalcMain]

@[simp] theorem recalc_contingency (m : BudgetModel) :
    (recalc m).contingency_pct = m.contingency_pct := by
  simp [recalc, recalcMain]


/-- A sanity example: pyRound is round-half-to-even, matching Python. -/
example : pyRound (1/2) = 0 := pyRound_eq_half_even _ 0 (by norm_num) (by norm_num)

example : pyRound (3/2) = 2 := pyRound_eq_half_odd _ 1 (by norm_num) (by norm_num)

example : pyRound (-25/2) = -12 := by
  have h := pyRound_eq_half_odd (-25/2) (-13) (by norm_num) (by decide)
  rw [h]
  decide

example : pyRound (5/2) = 2 := pyRound_eq_half_even _ 2 (by norm_num) (by norm_num)


/-! Claim C5 and its supporting lemma. -/

/-- What check_over_budget computes, with the row list expressed through
positions into the category list. -/
theorem check_over_spec (x : BudgetModel) :
    ((check_over_budget x).over_budget = true ↔
      ((x.categories.filter isLocked).map (fun c => c.amount)).sum > x.subtotal + 1)
    ∧ (check_over_budget x).over_budget_rows
        = (if ((x.categories.filter isLocked).map (fun c => c.amount)).sum > x.subtotal + 1
           then (List.range x.categories.length).filter
                  (fun i => ((x.categories[i]?).map isLocked).getD false)
           else []) := by
  have hrows : ((x.categories.enum.filter (fun p => isLocked p.2)).map Prod.fst)
      = (List.range x.categories.length).filter
          (fun i => ((x.categories[i]?).map isLocked).getD false) := by
    have h := enumFromFilterMap isLocked x.categories 0
    rw [show x.categories.enum = List.enumFrom 0 x.categories from rfl, h]
    rw [List.map_congr_left (fun a _ => by simp : ∀ a ∈ (List.range
      x.categories.length).filter (fun i => ((x.categories[i]?).map isLocked).getD false),
        (fun j => 0 + j) a = id a)]
    exact List.map_id _
  unfold check_over_budget
  by_cases h : ((x.categories.filter isLocked).map (fun c => c.amount)).sum > x.subtotal + 1
  · rw [if_pos h, if_pos h]
    exact ⟨by simp [h], hrows⟩
  · rw [if_neg h, if_neg h]
    simp [h]

/-- C5: after recalc, over_budget is set exactly when the locked
categories' amounts exceed subtotal plus the tolerance of 1, and
over_budget_rows is then exactly the ascending list of the indices of all
locked categories, else empty. -/
theorem C5_over_budget_check (m : BudgetModel) :
    ((recalc m).over_budget = true ↔
      (((recalc m).categories.filter isLocked).map (fun c => c.amount)).sum
        > (recalc m).subtotal + 1)
    ∧ (recalc m).over_budget_rows
        = (if (((recalc m).categories.filter isLocked).map (fun c => c.amount)).sum
              > (recalc m).subtotal + 1
           then (List.range (recalc m).categories.length).filter
                  (fun i => (((recalc m).categories[i]?).map isLocked).getD false)
           else []) := by
  have h := check_over_spec (recalcMain m)
  rw [show (recalcMain m).categories = recalcCategories m from rfl,
      show (recalcMain m).subtotal = recalcSubtotal m from rfl] at h
  simp only [recalc_categories, recalc_subtotal]
  exact h

/-! Claim C2: the fee-inversion subtotal formula and the spec's concrete
fee-inversion scenario. -/

/-- C2: with fees present in percentage mode, recalc inverts the fee
algebra: subtotal = round((grand_total - fixed fees) / (1 + pct/100)), or
0 when the denominator vanishes; concretely, grand total 1100 with a
single 10-percent fee gives subtotal 1000, fee amount 100 and computed
grand total 1100. -/
theorem C2_fee_inversion :
    (∀ m : BudgetModel, m.fees ≠ [] → m.import_mode = "percentage" →
      (recalc m).subtotal =
        if 1 + totalFeePct m / 100 ≠ 0 then
          ((pyRound ((m.grand_total - fixedFeeTotal m) / (1 + totalFeePct m / 100)) : ℤ) : ℚ)
        else 0)
    ∧ (recalc demoC2).subtotal = 1000
    ∧ ((recalc demoC2).fees.map (fun f => f.computed_amount)) = [100]
    ∧ (recalc demoC2).computed_grand_total = 1100 := by
  have hgen : ∀ m : BudgetModel, m.fees ≠ [] → m.import_mode = "percentage" →
      (recalc m).subtotal =
        if 1 + totalFeePct m / 100 ≠ 0 then
          ((pyRound ((m.grand_total - fixedFeeTotal m) / (1 + totalFeePct m / 100)) : ℤ) : ℚ)
        else 0 := by
    intro m hfees hmode
    rw [recalc_subtotal]
    unfold recalcSubtotal
    rw [if_neg hfees, if_neg (by rw [hmode]; decide)]
  have hpct : totalFeePct demoC2 = 10 := by
    simp [totalFeePct, demoC2, baseModel]
  have hfix : fixedFeeTotal demoC2 = 0 := by
    simp [fixedFeeTotal, demoC2, baseModel]
  have hsub : recalcSubtotal demoC2 = 1000 := by
    unfold recalcSubtotal
    rw [if_neg (by decide), if_neg (by decide), hpct, hfix]
    rw [if_pos (by norm_num)]
    have harg : (demoC2.grand_total - 0) / (1 + (10 : ℚ) / 100) = ((1000 : ℤ) : ℚ) := by
      show ((1100 : ℚ) - 0) / (1 + (10 : ℚ) / 100) = ((1000 : ℤ) : ℚ)
      norm_num
    rw [harg, pyRound_intCast]
    norm_num
  have hupd : feeUpdate 1000 ⟨"Fee", "percentage", 10, 0⟩
      = (⟨"Fee", "percentage", 10, 100⟩ : FeeItem) := by
    unfold feeUpdate
    rw [if_pos rfl]
    have harg : (1000 : ℚ) * (10 / 100) = ((100 : ℤ) : ℚ) := by norm_num
    rw [harg, pyRound_intCast]
    norm_num
  have hfee : (recalcFees demoC2).map (fun f => f.computed_amount) = [100] := by
    have hd : recalcFees demoC2
        = [feeUpdate (recalcSubtotal demoC2) ⟨"Fee", "percentage", 10, 0⟩] := rfl
    rw [hd, hsub, hupd]
    rfl
  refine ⟨hgen, ?_, ?_, ?_⟩
  · rw [recalc_subtotal, hsub]
  · rw [recalc_fees, hfee]
  · rw [recalc_cgt]
    unfold recalcCGT
    rw [if_pos (by decide), hsub, hfee]
    norm_num

/-- Witness for C2: the general fee-inversion statement applied to a
concrete state with a 5-percent fee on a grand total of 210. -/
theorem C2_fee_inversion_witness :
    demoC2W.fees ≠ [] ∧ demoC2W.import_mode = "percentage" ∧
    (recalc demoC2W).subtotal =
      (if 1 + totalFeePct demoC2W / 100 ≠ 0 then
        ((pyRound ((demoC2W.grand_total - fixedFeeTotal demoC2W)
            / (1 + totalFeePct demoC2W / 100)) : ℤ) : ℚ)
      else 0) :=
  ⟨by decide, rfl, C2_fee_inversion.1 demoC2W (by decide) rfl⟩


/-! Claim C1: percentage conservation, with its redistribution lemmas. -/

/-- lockedPass does not change the lock type. -/
@[simp] theorem lockedPass_lock_type (st : ℚ) (c : Category) :
    (lockedPass st c).lock_type = c.lock_type := by
  unfold lockedPass
  split
  · rfl
  · split <;> rfl

/-- setUnlockedPct does not change the lock type. -/
@[simp] theorem setUnlockedPct_lock_type (st p : ℚ) (c : Category) :
    (setUnlockedPct st p c).lock_type = c.lock_type := rfl

/-- With lock types limited to 0, 1, 2, not-unlocked is exactly locked. -/
theorem notUnlockedEqLocked (l : List Category)
    (hwf : ∀ c ∈ l, c.lock_type ≤ 2) :
    l.filter (fun c => !(c.lock_type == 0)) = l.filter isLocked :=
  List.filter_congr (fun c hc => by
    have h3 : c.lock_type = 0 ∨ c.lock_type = 1 ∨ c.lock_type = 2 := by
      have := hwf c hc
      omega
    rcases h3 with h | h | h <;> simp [isLocked, h])

/-- After redistribution the percentages of all categories sum to exactly
100, provided lock types are well formed and at least one category is
unlocked. -/
theorem redistribute_pct_sum (st : ℚ) (l : List Category)
    (hwf : ∀ c ∈ l, c.lock_type ≤ 2)
    (hun : ∃ c ∈ l, c.lock_type = 0) :
    ((redistribute st l).map (fun c => c.percentage)).sum = 100 := by
  have hUlen : 0 < (l.filter (fun c => c.lock_type == 0)).length := by
    rcases hun with ⟨c, hc, h0⟩
    have : c ∈ l.filter (fun c => c.lock_type == 0) :=
      List.mem_filter.mpr ⟨hc, by simp [h0]⟩
    exact List.length_pos.mpr (fun hnil => by simp [hnil] at this)
  have hlockedpart : ∀ g : Category → Category,
      (∀ c, ¬ c.lock_type = 0 → g c = c) →
      ((l.filter (fun c => !(c.lock_type == 0))).map
        (fun c => (g c).percentage)).sum = fixedPctTotal l := by
    intro g hg
    unfold fixedPctTotal
    rw [List.map_congr_left (fun c hc => by
      have : ¬ c.lock_type = 0 := by
        have := (List.mem_filter.mp hc).2
        simpa using this
      rw [hg c this])]
    rw [notUnlockedEqLocked l hwf]
  simp only [redistribute]
  rw [if_pos hUlen]
  by_cases hS : ((l.filter (fun c => c.lock_type == 0)).map
      (fun c => c.percentage)).sum ≤ 0
  · rw [if_pos hS]
    rw [List.map_map, sumSplit (fun c => c.lock_type == 0)]
    have h1 : ((l.filter (fun c => c.lock_type == 0)).map
        ((fun c => c.percentage) ∘ (fun c => if c.lock_type == 0 then
          setUnlockedPct st ((100 - fixedPctTotal l) /
            ((l.filter (fun c => c.lock_type == 0)).length : ℚ)) c else c))).sum
        = ((l.filter (fun c => c.lock_type == 0)).length : ℚ)
            * ((100 - fixedPctTotal l) /
              ((l.filter (fun c => c.lock_type == 0)).length : ℚ)) := by
      rw [List.map_congr_left (fun c hc => by
        have h0 : (c.lock_type == 0) = true := (List.mem_filter.mp hc).2
        simp only [Function.comp_apply, h0, if_true]
        rfl)]
      exact sumMapConst _ _
    have h2 : ((l.filter (fun c => !(c.lock_type == 0))).map
        ((fun c => c.percentage) ∘ (fun c => if c.lock_type == 0 then
          setUnlockedPct st ((100 - fixedPctTotal l) /
            ((l.filter (fun c => c.lock_type == 0)).length : ℚ)) c else c))).sum
        = fixedPctTotal l := by
      refine hlockedpart _ (fun c hc => ?_)
      rw [if_neg (by simpa using hc)]
    rw [h1, h2]
    have hne : ((l.filter (fun c => c.lock_type == 0)).length : ℚ) ≠ 0 := by
      exact_mod_cast Nat.pos_iff_ne_zero.mp hUlen
    field_simp
  · rw [if_neg hS]
    push_neg at hS
    rw [List.map_map, sumSplit (fun c => c.lock_type == 0)]
    have h1 : ((l.filter (fun c => c.lock_type == 0)).map
        ((fun c => c.percentage) ∘ (fun c => if c.lock_type == 0 then
          setUnlockedPct st (c.percentage / ((l.filter (fun c => c.lock_type == 0)).map
            (fun c => c.percentage)).sum * (100 - fixedPctTotal l)) c else c))).sum
        = 100 - fixedPctTotal l := by
      rw [List.map_congr_left (fun c hc => by
        have h0 : (c.lock_type == 0) = true := (List.mem_filter.mp hc).2
        simp only [Function.comp_apply, h0, if_true]
        show c.percentage / ((l.filter (fun c => c.lock_type == 0)).map
            (fun c => c.percentage)).sum * (100 - fixedPctTotal l)
          = c.percentage * ((100 - fixedPctTotal l) / ((l.filter
              (fun c => c.lock_type == 0)).map (fun c => c.percentage)).sum)
        ring)]
      rw [List.sum_map_mul_right]
      field_simp
    have h2 : ((l.filter (fun c => !(c.lock_type == 0))).map
        ((fun c => c.percentage) ∘ (fun c => if c.lock_type == 0 then
          setUnlockedPct st (c.percentage / ((l.filter (fun c => c.lock_type == 0)).map
            (fun c => c.percentage)).sum * (100 - fixedPctTotal l)) c else c))).sum
        = fixedPctTotal l := by
      refine hlockedpart _ (fun c hc => ?_)
      rw [if_neg (by simpa using hc)]
    rw [h1, h2]
    ring

/-- C1: in percentage mode with at least one unlocked category and a
locked-percentage total of at most 100, recalc leaves the categories'
percentages summing to 100 within the 0.01 tolerance (the sum is exactly
100 in exact arithmetic). -/
theorem C1_percentage_conservation (m : BudgetModel)
    (hmode : m.import_mode = "percentage")
    (hwf : ∀ c ∈ m.categories, c.lock_type ≤ 2)
    (hunlocked : ∃ c ∈ m.categories, c.lock_type = 0)
    (hlocked : fixedPctTotal m.categories ≤ 100) :
    |(((recalc m).categories.map (fun c => c.percentage)).sum) - 100| ≤ 1/100 := by
  rw [recalc_categories]
  unfold recalcCategories
  rw [if_neg (by simp [hmode]), if_neg (by simp [hmode])]
  have hwf1 : ∀ c ∈ m.categories.map (lockedPass (recalcSubtotal m)),
      c.lock_type ≤ 2 := by
    intro c hc
    rcases List.mem_map.mp hc with ⟨c0, hc0, rfl⟩
    rw [lockedPass_lock_type]
    exact hwf c0 hc0
  have hun1 : ∃ c ∈ m.categories.map (lockedPass (recalcSubtotal m)),
      c.lock_type = 0 := by
    rcases hunlocked with ⟨c0, hc0, h0⟩
    exact ⟨lockedPass (recalcSubtotal m) c0, List.mem_map_of_mem _ hc0,
      by rw [lockedPass_lock_type]; exact h0⟩
  rw [redistribute_pct_sum (recalcSubtotal m) _ hwf1 hun1]
  norm_num

/-- Witness for C1 on a concrete three-category percentage-mode state. -/
theorem C1_percentage_conservation_witness :
    demoC1.import_mode = "percentage"
    ∧ (∃ c ∈ demoC1.categories, c.lock_type = 0)
    ∧ fixedPctTotal demoC1.categories ≤ 100
    ∧ |(((recalc demoC1).categories.map (fun c => c.percentage)).sum) - 100| ≤ 1/100 := by
  have hlocked : fixedPctTotal demoC1.categories ≤ 100 := by
    have : fixedPctTotal demoC1.categories = 20 := by
      simp [fixedPctTotal, isLocked, demoC1, baseModel]
    rw [this]
    norm_num
  exact ⟨rfl, by decide, hlocked,
    C1_percentage_conservation demoC1 rfl (by decide) (by decide) hlocked⟩

/-! Claim C8: the amount/percentage duality of the edit mutators. -/

/-- Reading the updated position of updateAt. -/
theorem updateAt_getElem_self :
    ∀ (l : List Category) (i : Nat) (f : Category → Category),
      (updateAt l i f)[i]? = l[i]?.map f
  | [], i, f => by cases i <;> simp [updateAt]
  | c :: cs, 0, f => by simp [updateAt]
  | c :: cs, n + 1, f => by
      simp only [updateAt, List.getElem?_cons_succ]
      exact updateAt_getElem_self cs n f

/-- Redistribution never touches a locked position. -/
theorem redistribute_getElem_locked (st : ℚ) (L : List Category) (i : Nat)
    (c : Category) (hc : L[i]? = some c) (h0 : ¬ c.lock_type = 0) :
    (redistribute st L)[i]? = some c := by
  have h0b : (c.lock_type == 0) = false := by simpa using h0
  simp only [redistribute]
  split
  · split
    · rw [List.getElem?_map, hc]
      rw [show Option.map (fun c => if c.lock_type == 0 then
          setUnlockedPct st ((100 - fixedPctTotal L) /
            ((L.filter (fun c => c.lock_type == 0)).length : ℚ)) c else c) (some c)
          = some (if c.lock_type == 0 then setUnlockedPct st ((100 - fixedPctTotal L) /
            ((L.filter (fun c => c.lock_type == 0)).length : ℚ)) c else c) from rfl]
      rw [if_neg (by simp [h0b])]
    · rw [List.getElem?_map, hc]
      rw [show Option.map (fun c => if c.lock_type == 0 then
          setUnlockedPct st (c.percentage / ((L.filter
            (fun c => c.lock_type == 0)).map (fun c => c.percentage)).sum
            * (100 - fixedPctTotal L)) c else c) (some c)
          = some (if c.lock_type == 0 then setUnlockedPct st (c.percentage /
            ((L.filter (fun c => c.lock_type == 0)).map
              (fun c => c.percentage)).sum * (100 - fixedPctTotal L)) c else c) from rfl]
      rw [if_neg (by simp [h0b])]
  · exact hc

/-- C8, as forced by the code: in percentage mode, editing the amount of a
Lock Amount category to a ≥ 0 leaves its percentage at a/subtotal*100
(0 for subtotal 0), and editing the percentage of a Lock Percentage
category to p ≥ 0 leaves its amount at round(subtotal * p/100), with
subtotal the recomputed subtotal. -/
theorem C8_amount_percentage_duality :
    (∀ (m : BudgetModel) (i : Nat) (a : ℚ) (c : Category),
      m.import_mode = "percentage" → m.categories[i]? = some c →
      c.lock_type = 1 → 0 ≤ a →
      ((update_category_amount m i a).categories[i]?.map (fun d => d.percentage))
        = some (if (update_category_amount m i a).subtotal ≠ 0 then
            a / (update_category_amount m i a).subtotal * 100 else 0))
    ∧ (∀ (m : BudgetModel) (i : Nat) (p : ℚ) (c : Category),
      m.import_mode = "percentage" → m.categories[i]? = some c →
      c.lock_type = 2 → 0 ≤ p →
      ((update_category_percentage m i p).categories[i]?.map (fun d => d.amount))
        = some ((pyRound ((update_category_percentage m i p).subtotal * (p / 100)) : ℤ) : ℚ)) := by
  constructor
  · intro m i a c hmode hc hl ha
    have hmax : max a 0 = a := max_eq_left ha
    unfold update_category_amount
    rw [recalc_categories, recalc_subtotal]
    unfold recalcCategories
    rw [if_neg (by simp [hmode]), if_neg (by simp [hmode])]
    rw [hmax]
    generalize recalcSubtotal _ = st
    have hup := updateAt_getElem_self m.categories i (amountEditFn m a)
    rw [hc] at hup
    have hmap : (List.map (lockedPass st)
        (updateAt m.categories i (amountEditFn m a)))[i]?
        = some (lockedPass st (amountEditFn m a c)) := by
      rw [List.getElem?_map, hup]
      rfl
    have hlp : lockedPass st (amountEditFn m a c)
        = { c with amount_override := some a, amount := a,
                   percentage := if st ≠ 0 then a / st * 100 else 0 } := by
      unfold lockedPass amountEditFn
      rw [if_pos (show c.lock_type = 1 from hl)]
      rfl
    rw [hlp] at hmap
    rw [redistribute_getElem_locked st _ i _ hmap (by
      show ¬ c.lock_type = 0
      omega)]
    rfl
  · intro m i p c hmode hc hl hp
    have hmax : max p 0 = p := max_eq_left hp
    unfold update_category_percentage
    rw [recalc_categories, recalc_subtotal]
    unfold recalcCategories
    rw [if_neg (by simp [hmode]), if_neg (by simp [hmode])]
    rw [hmax]
    generalize recalcSubtotal _ = st
    have hup := updateAt_getElem_self m.categories i (pctEditFn p)
    rw [hc] at hup
    have hmap : (List.map (lockedPass st)
        (updateAt m.categories i (pctEditFn p)))[i]?
        = some (lockedPass st (pctEditFn p c)) := by
      rw [List.getElem?_map, hup]
      rfl
    have hlp : lockedPass st (pctEditFn p c)
        = { c with percentage := p,
                   amount := ((pyRound (st * (p / 100)) : ℤ) : ℚ) } := by
      unfold lockedPass pctEditFn
      rw [if_neg (show ¬ c.lock_type = 1 by omega)]
      rw [if_pos (show c.lock_type = 2 from hl)]
      rw [hl]
      rw [if_neg (show ¬ (2 : Nat) ≠ 2 by omega)]
    rw [hlp] at hmap
    rw [redistribute_getElem_locked st _ i _ hmap (by
      show ¬ c.lock_type = 0
      omega)]
    rfl

/-- Counterexample to C8 as stated: in the default amount mode, setting
category 0's amount to 100 under subtotal 1000 leaves the percentage at
20 (derived from the untouched amount 200), not at 100/1000*100 = 10. -/
theorem C8_counterexample :
    (update_category_amount demoC8 0 100).subtotal = 1000
    ∧ ((update_category_amount demoC8 0 100).categories[0]?.map
        (fun d => d.percentage)) = some 20
    ∧ ¬ ((update_category_amount demoC8 0 100).categories[0]?.map
        (fun d => d.percentage))
        = some (100 / (update_category_amount demoC8 0 100).subtotal * 100) := by
  have hsub : (update_category_amount demoC8 0 100).subtotal = 1000 := by
    unfold update_category_amount
    rw [recalc_subtotal]
    rfl
  have hpct : ((update_category_amount demoC8 0 100).categories[0]?.map
      (fun d => d.percentage)) = some 20 := by
    unfold update_category_amount
    rw [recalc_categories]
    unfold recalcCategories
    norm_num [demoC8, baseModel, updateAt, amountEditFn, amountModePct,
      recalcSubtotal, List.getElem?_map]
  refine ⟨hsub, hpct, ?_⟩
  rw [hpct, hsub]
  intro hbad
  have : (20 : ℚ) = 100 / 1000 * 100 := Option.some.inj hbad
  norm_num at this

/-- Witness for C8 on a concrete percentage-mode state: both duality
directions applied at locked categories. -/
theorem C8_amount_percentage_duality_witness :
    demoC8W.import_mode = "percentage"
    ∧ ((update_category_amount demoC8W 0 300).categories[0]?.map
        (fun d => d.percentage))
        = some (if (update_category_amount demoC8W 0 300).subtotal ≠ 0 then
            300 / (update_category_amount demoC8W 0 300).subtotal * 100 else 0)
    ∧ ((update_category_percentage demoC8W 1 40).categories[1]?.map
        (fun d => d.amount))
        = some ((pyRound ((update_category_percentage demoC8W 1 40).subtotal
            * (40 / 100)) : ℤ) : ℚ) :=
  ⟨rfl,
    C8_amount_percentage_duality.1 demoC8W 0 300 ⟨"A", 50, 500, none, 1⟩
      rfl rfl rfl (by norm_num),
    C8_amount_percentage_duality.2 demoC8W 1 40 ⟨"B", 50, 0, none, 2⟩
      rfl rfl rfl (by norm_num)⟩

/-! Claim C6: wholesale replacement on deserialization, with the recalc
congruence lemmas it rests on. -/

/-- The keep-amounts branch of the category recomputation coincides with
the plain amount-mode branch, so recalcCategories only depends on
the import mode, not the keep flag. -/
theorem recalcCategories_eq (m : BudgetModel) :
    recalcCategories m
      = if m.import_mode = "amount"
        then m.categories.map (amountModePct (recalcSubtotal m))
        else redistribute (recalcSubtotal m)
              (m.categories.map (lockedPass (recalcSubtotal m))) := by
  unfold recalcCategories
  by_cases h1 : m.import_mode = "amount" ∧ m.keep_category_amounts
  · rw [if_pos h1, if_pos h1.1]
  · rw [if_neg h1]

/-- The derived quantities of recalc depend only on grand_total,
categories, fees and import_mode. -/
theorem recalc_core_congr (a b : BudgetModel)
    (h1 : a.grand_total = b.grand_total) (h2 : a.categories = b.categories)
    (h3 : a.fees = b.fees) (h4 : a.import_mode = b.import_mode) :
    recalcSubtotal a = recalcSubtotal b
    ∧ recalcCategories a = recalcCategories b
    ∧ recalcFees a = recalcFees b
    ∧ recalcCGT a = recalcCGT b := by
  have hs : recalcSubtotal a = recalcSubtotal b := by
    unfold recalcSubtotal fixedFeeTotal totalFeePct
    rw [h1, h2, h3, h4]
  have hcats : recalcCategories a = recalcCategories b := by
    rw [recalcCategories_eq, recalcCategories_eq, hs, h2, h4]
  have hfees : recalcFees a = recalcFees b := by
    unfold recalcFees
    rw [hs, h3]
  refine ⟨hs, hcats, hfees, ?_⟩
  unfold recalcCGT
  rw [hs, h3, hfees]

/-- The over-budget flags depend only on categories and subtotal. -/
theorem check_over_congr (x y : BudgetModel) (h1 : x.categories = y.categories)
    (h2 : x.subtotal = y.subtotal) :
    (check_over_budget x).over_budget = (check_over_budget y).over_budget
    ∧ (check_over_budget x).over_budget_rows
        = (check_over_budget y).over_budget_rows := by
  unfold check_over_budget
  rw [h1, h2]
  by_cases hC : ((y.categories.filter isLocked).map (fun c => c.amount)).sum
      > y.subtotal + 1
  · rw [if_pos hC, if_pos hC]
    exact ⟨rfl, rfl⟩
  · rw [if_neg hC, if_neg hC]
    exact ⟨rfl, rfl⟩

/-- C6 as forced by the code: from_dict installs the document's categories
and fees wholesale and recomputes all derived state (the result is
independent of the prior categories, fees and derived fields), but the
groups collection is left at its prior value, not replaced. -/
theorem C6_from_dict_replacement (m1 m2 : BudgetModel) (d : ModelDoc) :
    from_dict m1 d = recalc (loadState m1 d)
    ∧ (from_dict m1 d).groups = m1.groups
    ∧ (loadState m1 d).categories = (d.categories.getD []).map catFromDict
    ∧ (loadState m1 d).fees = (d.fees.getD []).map feeFromDict
    ∧ (from_dict m1 d).categories = (from_dict m2 d).categories
    ∧ (from_dict m1 d).fees = (from_dict m2 d).fees
    ∧ (from_dict m1 d).subtotal = (from_dict m2 d).subtotal
    ∧ (from_dict m1 d).computed_grand_total = (from_dict m2 d).computed_grand_total
    ∧ (from_dict m1 d).over_budget = (from_dict m2 d).over_budget
    ∧ (from_dict m1 d).over_budget_rows = (from_dict m2 d).over_budget_rows
    ∧ (from_dict m1 d).grand_total = (from_dict m2 d).grand_total
    ∧ (from_dict m1 d).import_mode = (from_dict m2 d).import_mode := by
  have hq := recalc_core_congr (loadState m1 d) (loadState m2 d) rfl rfl rfl rfl
  have hover := check_over_congr (recalcMain (loadState m1 d))
    (recalcMain (loadState m2 d))
    (by rw [show (recalcMain (loadState m1 d)).categories
          = recalcCategories (loadState m1 d) from rfl,
        show (recalcMain (loadState m2 d)).categories
          = recalcCategories (loadState m2 d) from rfl, hq.2.1])
    (by rw [show (recalcMain (loadState m1 d)).subtotal
          = recalcSubtotal (loadState m1 d) from rfl,
        show (recalcMain (loadState m2 d)).subtotal
          = recalcSubtotal (loadState m2 d) from rfl, hq.1])
  refine ⟨rfl, ?_, rfl, rfl, ?_, ?_, ?_, ?_, ?_, ?_, ?_, ?_⟩
  · unfold from_dict
    rw [recalc_groups]
    rfl
  · unfold from_dict
    rw [recalc_categories, recalc_categories]
    exact hq.2.1
  · unfold from_dict
    rw [recalc_fees, recalc_fees]
    exact hq.2.2.1
  · unfold from_dict
    rw [recalc_subtotal, recalc_subtotal]
    exact hq.1
  · unfold from_dict
    rw [recalc_cgt, recalc_cgt]
    exact hq.2.2.2
  · exact hover.1
  · exact hover.2
  · unfold from_dict
    rw [recalc_grand_total, recalc_grand_total]
    rfl
  · unfold from_dict
    rw [recalc_import_mode, recalc_import_mode]
    rfl

/-- Counterexample to C6 as stated: loading one and the same document into
two engines that differ only in their groups yields different groups — the
document's groups are never installed, the prior ones persist. -/
theorem C6_counterexample :
    (from_dict demoC6a demoDoc).groups ≠ (from_dict demoC6b demoDoc).groups
    ∧ (from_dict demoC6a demoDoc).groups = demoC6a.groups := by
  have ha : (from_dict demoC6a demoDoc).groups = demoC6a.groups := by
    unfold from_dict
    rw [recalc_groups]
    rfl
  have hb : (from_dict demoC6b demoDoc).groups = demoC6b.groups := by
    unfold from_dict
    rw [recalc_groups]
    rfl
  refine ⟨?_, ha⟩
  rw [ha, hb]
  decide

/-! Claim C10: the category total is positive whenever amount mode was
detected, so the fee conversion's division is well defined. -/

/-- parseFee only produces percentage or fixed fees. -/
theorem parseFee_fee_type (r : Row) :
    (parseFee r).fee_type = "percentage" ∨ (parseFee r).fee_type = "fixed" := by
  unfold parseFee mkFeeItem
  split
  · left
    show strLower "percentage" = "percentage"
    decide
  · right
    show strLower "fixed" = "fixed"
    decide

/-- modeOfAmount returns "amount" exactly on positive amounts. -/
theorem modeOfAmount_eq_amount (a : ℚ) : modeOfAmount a = "amount" ↔ 0 < a := by
  unfold modeOfAmount
  split
  · simp_all
  · simp_all

/-- The import scan preserves its invariant. -/
theorem scanRows_inv :
    ∀ (rows : List Row) (st st' : ScanState),
      scanRows st rows = Except.ok st' → scanInv st → scanInv st'
  | [], st, st', h, hP => by
    rw [show scanRows st [] = Except.ok st from rfl] at h
    cases h
    exact hP
  | r :: rs, st, st', h, hP => by
    simp only [scanRows] at h
    by_cases hfee : isFeeRow r
    · rw [if_pos hfee] at h
      refine scanRows_inv rs _ st' h ⟨hP.1, hP.2.1, ?_, hP.2.2.2⟩
      intro f hf
      rcases List.mem_append.mp hf with hf | hf
      · exact hP.2.2.1 f hf
      · rcases List.mem_singleton.mp hf with rfl
        exact parseFee_fee_type r
    · rw [if_neg hfee] at h
      cases hmode : st.mode with
      | none =>
        rw [hmode] at h
        dsimp only at h
        have hemp : st.cats = [] := hP.1 hmode
        refine scanRows_inv rs _ st' h ⟨?_, ?_, hP.2.2.1, ?_⟩
        · intro hx
          exact absurd hx (by simp)
        · intro c hc
          rw [hemp] at hc
          rcases List.mem_singleton.mp (by simpa using hc) with rfl
          exact ⟨rfl, rfl⟩
        · intro hx
          have hxa : modeOfAmount r.amount = "amount" := by
            have := congrArg (fun o => o.getD "") hx
            simpa using this
          have hpos : 0 < r.amount := (modeOfAmount_eq_amount r.amount).mp hxa
          rw [hemp]
          refine ⟨by simp, ?_⟩
          intro c hc
          rcases List.mem_singleton.mp (by simpa using hc) with rfl
          exact hpos
      | some md =>
        rw [hmode] at h
        dsimp only at h
        by_cases hmm : modeOfAmount r.amount ≠ md
        · rw [if_pos hmm] at h
          cases h
        · rw [if_neg hmm] at h
          push_neg at hmm
          refine scanRows_inv rs _ st' h ⟨?_, ?_, hP.2.2.1, ?_⟩
          · intro hx
            exact absurd hx (by simp)
          · intro c hc
            rcases List.mem_append.mp hc with hc | hc
            · exact hP.2.1 c hc
            · rcases List.mem_singleton.mp hc with rfl
              exact ⟨rfl, rfl⟩
          · intro hx
            have hmd : md = "amount" := by
              have := congrArg (fun o => o.getD "") hx
              simpa using this
            have hold := hP.2.2.2 (by rw [hmode, hmd])
            refine ⟨by simp, ?_⟩
            intro c hc
            rcases List.mem_append.mp hc with hc | hc
            · exact hold.2 c hc
            · rcases List.mem_singleton.mp hc with rfl
              exact (modeOfAmount_eq_amount r.amount).mp (by rw [hmm, hmd])

/-- The initial scan state satisfies the invariant. -/
theorem scanInv_init : scanInv initScan := by
  refine ⟨fun _ => rfl, ?_, ?_, ?_⟩
  · intro c hc
    simp [initScan] at hc
  · intro f hf
    simp [initScan] at hf
  · intro hx
    simp [initScan] at hx

/-- C10: whenever the scan succeeds detecting amount mode, the summed
category amount is strictly positive, so the fixed-fee conversion's
division by cat_total in import_from_excel never divides by zero. -/
theorem C10_cat_total_positive (rows : List Row) (st : ScanState)
    (hscan : scanRows initScan rows = Except.ok st)
    (hmode : st.mode = some "amount") :
    0 < ((st.cats.map (fun c => c.amount)).sum) := by
  have hP := scanRows_inv rows initScan st hscan scanInv_init
  obtain ⟨hne, hpos⟩ := hP.2.2.2 hmode
  apply List.sum_pos
  · intro x hx
    rcases List.mem_map.mp hx with ⟨c, hc, rfl⟩
    exact hpos c hc
  · intro hnil
    exact hne (List.map_eq_nil.mp hnil)

/-- Witness for C10 on a one-row amount-mode spreadsheet. -/
theorem C10_cat_total_positive_witness :
    scanRows initScan demoRows10
      = Except.ok ⟨[], [⟨"A", 0, 5, none, 0⟩], [("G", [0])], some "amount"⟩
    ∧ 0 < (((⟨[], [⟨"A", 0, 5, none, 0⟩], [("G", [0])], some "amount"⟩ :
        ScanState).cats.map (fun c => c.amount)).sum) := by
  have hs : scanRows initScan demoRows10
      = Except.ok ⟨[], [⟨"A", 0, 5, none, 0⟩], [("G", [0])], some "amount"⟩ := by
    rfl
  exact ⟨hs, C10_cat_total_positive demoRows10 _ hs rfl⟩

/-! Claim C3: the mixed-mode import failure and what it leaves behind. -/

/-- Mode disagreement restated through amount signs. -/
theorem modeOfAmount_ne_iff (a b : ℚ) :
    modeOfAmount a ≠ modeOfAmount b ↔ decide (0 < a) ≠ decide (0 < b) := by
  unfold modeOfAmount
  by_cases ha : 0 < a <;> by_cases hb : 0 < b <;> simp [ha, hb]

/-- Once a mode is fixed, a later disagreeing non-fee row makes the scan
fail at the first such row: the failure state holds the starting fees plus
exactly those of the scanned prefix, every row of which is a fee row or a
mode-agreeing category row. -/
theorem scanRows_err (md : String) :
    ∀ (rows : List Row) (st : ScanState), st.mode = some md →
      (∃ r0 ∈ rows, isFeeRow r0 = false ∧ modeOfAmount r0.amount ≠ md) →
      ∃ st' pfx bad sfx, rows = pfx ++ bad :: sfx
        ∧ scanRows st rows = Except.error st'
        ∧ st'.fees = st.fees ++ feesIn pfx
        ∧ isFeeRow bad = false
        ∧ modeOfAmount bad.amount ≠ md
        ∧ ∀ r ∈ pfx, isFeeRow r = true ∨ modeOfAmount r.amount = md
  | [], _, _, hbad => by
    rcases hbad with ⟨r0, hr0, _⟩
    exact absurd hr0 (by simp)
  | r :: rs, st, hmd, hbad => by
    simp only [scanRows]
    by_cases hfee : isFeeRow r
    · rw [if_pos hfee]
      have hbad2 : ∃ r0 ∈ rs, isFeeRow r0 = false ∧ modeOfAmount r0.amount ≠ md := by
        rcases hbad with ⟨r0, hr0, hprop⟩
        rcases List.mem_cons.mp hr0 with rfl | hr0
        · rw [hprop.1] at hfee
          exact absurd hfee (by simp)
        · exact ⟨r0, hr0, hprop⟩
      obtain ⟨st', pfx, bad, sfx, hsplit, hrun, hfees, hbf, hbm, hall⟩ :=
        scanRows_err md rs { st with fees := st.fees ++ [parseFee r] } hmd hbad2
      refine ⟨st', r :: pfx, bad, sfx, by rw [hsplit]; rfl, hrun, ?_, hbf, hbm, ?_⟩
      · rw [hfees]
        show st.fees ++ [parseFee r] ++ feesIn pfx = _
        rw [show feesIn (r :: pfx) = parseFee r :: feesIn pfx by
          simp [feesIn, List.filter_cons, hfee]]
        rw [List.append_assoc]
        rfl
      · intro r2 hr2
        rcases List.mem_cons.mp hr2 with rfl | hr2
        · exact Or.inl hfee
        · exact hall r2 hr2
    · rw [if_neg hfee]
      rw [hmd]
      dsimp only
      by_cases hmm : modeOfAmount r.amount ≠ md
      · rw [if_pos hmm]
        refine ⟨st, [], r, rs, rfl, rfl, ?_, by simpa using hfee, hmm, ?_⟩
        · simp [feesIn]
        · intro r2 hr2
          exact absurd hr2 (List.not_mem_nil r2)
      · rw [if_neg hmm]
        push_neg at hmm
        have hbad2 : ∃ r0 ∈ rs, isFeeRow r0 = false ∧ modeOfAmount r0.amount ≠ md := by
          rcases hbad with ⟨r0, hr0, hprop⟩
          rcases List.mem_cons.mp hr0 with rfl | hr0
          · exact absurd hmm hprop.2
          · exact ⟨r0, hr0, hprop⟩
        obtain ⟨st', pfx, bad, sfx, hsplit, hrun, hfees, hbf, hbm, hall⟩ :=
          scanRows_err md rs { st with cats := st.cats ++ [mkCatFromRow r],
                                       groups := addToGroup st.groups r.group st.cats.length,
                                       mode := some md }
            rfl hbad2
        refine ⟨st', r :: pfx, bad, sfx, by rw [hsplit]; rfl, hrun, ?_, hbf, hbm, ?_⟩
        · rw [hfees]
          show st.fees ++ feesIn pfx = _
          rw [show feesIn (r :: pfx) = feesIn pfx by
            simp [feesIn, List.filter_cons, hfee]]
        · intro r2 hr2
          rcases List.mem_cons.mp hr2 with rfl | hr2
          · exact Or.inr hmm
          · exact hall r2 hr2

/-- From a fresh scan, a non-fee row disagreeing with the mode set by the
first non-fee row makes the scan fail at the first such row, leaving
exactly the fees of the scanned prefix, every row of which is a fee row or
a category row agreeing with the first one. -/
theorem scanRows_err_start :
    ∀ (rows : List Row) (st : ScanState) (first : Row) (rest : List Row),
      st.mode = none →
      rows.filter (fun r => !(isFeeRow r)) = first :: rest →
      (∃ bad ∈ rest, modeOfAmount bad.amount ≠ modeOfAmount first.amount) →
      ∃ st' pfx bad sfx, rows = pfx ++ bad :: sfx
        ∧ scanRows st rows = Except.error st'
        ∧ st'.fees = st.fees ++ feesIn pfx
        ∧ isFeeRow bad = false
        ∧ modeOfAmount bad.amount ≠ modeOfAmount first.amount
        ∧ ∀ r ∈ pfx, isFeeRow r = true
            ∨ modeOfAmount r.amount = modeOfAmount first.amount
  | [], _, _, _, _, hsplit, _ => by
    exact absurd hsplit (by simp)
  | r :: rs, st, first, rest, hmd, hsplit, hbad => by
    simp only [scanRows]
    by_cases hfee : isFeeRow r
    · rw [if_pos hfee]
      have hsplit2 : rs.filter (fun r => !(isFeeRow r)) = first :: rest := by
        rw [List.filter_cons] at hsplit
        simpa [hfee] using hsplit
      obtain ⟨st', pfx, bad, sfx, hs2, hrun, hfees, hbf, hbm, hall⟩ :=
        scanRows_err_start rs { st with fees := st.fees ++ [parseFee r] }
          first rest hmd hsplit2 hbad
      refine ⟨st', r :: pfx, bad, sfx, by rw [hs2]; rfl, hrun, ?_, hbf, hbm, ?_⟩
      · rw [hfees]
        show st.fees ++ [parseFee r] ++ feesIn pfx = _
        rw [show feesIn (r :: pfx) = parseFee r :: feesIn pfx by
          simp [feesIn, List.filter_cons, hfee]]
        rw [List.append_assoc]
        rfl
      · intro r2 hr2
        rcases List.mem_cons.mp hr2 with rfl | hr2
        · exact Or.inl hfee
        · exact hall r2 hr2
    · rw [if_neg hfee]
      rw [hmd]
      dsimp only
      have hb : isFeeRow r = false := by simpa using hfee
      rw [List.filter_cons] at hsplit
      rw [hb] at hsplit
      simp only [Bool.not_false, if_pos] at hsplit
      have h1 : r = first := (List.cons_eq_cons.mp hsplit).1
      have h2 : rs.filter (fun r => !(isFeeRow r)) = rest :=
        (List.cons_eq_cons.mp hsplit).2
      obtain ⟨st', pfx, bad, sfx, hs2, hrun, hfees, hbf, hbm, hall⟩ :=
        scanRows_err (modeOfAmount r.amount) rs
          { st with mode := some (modeOfAmount r.amount),
                    cats := st.cats ++ [mkCatFromRow r],
                    groups := addToGroup st.groups r.group st.cats.length } rfl
          (by
            rcases hbad with ⟨bad, hmem, hne⟩
            rw [← h2] at hmem
            have hmf := List.mem_filter.mp hmem
            refine ⟨bad, hmf.1, by simpa using hmf.2, ?_⟩
            rw [← h1] at hne
            exact hne)
      refine ⟨st', r :: pfx, bad, sfx, by rw [hs2]; rfl, hrun, ?_, hbf, ?_, ?_⟩
      · rw [hfees]
        show st.fees ++ feesIn pfx = _
        rw [show feesIn (r :: pfx) = feesIn pfx by
          simp [feesIn, List.filter_cons, hfee]]
      · rw [← h1]
        exact hbm
      · intro r2 hr2
        rcases List.mem_cons.mp hr2 with rfl | hr2
        · exact Or.inr (by rw [← h1])
        · rcases hall r2 hr2 with hl | hr
          · exact Or.inl hl
          · exact Or.inr (by rw [← h1]; exact hr)

/-- C3 as forced by the code: a mixed-mode spreadsheet makes the import
fail with the mixed-mode error, leaving the prior categories, groups, the
import-mode field and grand total untouched, while the fee list holds
exactly the fees parsed from the rows scanned before the failure: the rows
split at the first non-fee row whose implied mode disagrees with the first
non-fee row, all earlier rows are fee rows or mode-agreeing category rows,
and the fee list is the fees of that prefix. -/
theorem C3_mixed_mode_abort (m : BudgetModel) (rows : List Row) (first : Row)
    (rest : List Row)
    (hsplit : rows.filter (fun r => !(isFeeRow r)) = first :: rest)
    (hbad : ∃ bad ∈ rest, decide (0 < bad.amount) ≠ decide (0 < first.amount)) :
    ∃ res, import_from_excel m rows = ImportResult.mixedModeError res
      ∧ res.categories = m.categories ∧ res.groups = m.groups
      ∧ res.import_mode = m.import_mode ∧ res.grand_total = m.grand_total
      ∧ ∃ pfx bad sfx, rows = pfx ++ bad :: sfx
          ∧ res.fees = feesIn pfx
          ∧ isFeeRow bad = false
          ∧ modeOfAmount bad.amount ≠ modeOfAmount first.amount
          ∧ ∀ r ∈ pfx, isFeeRow r = true
              ∨ modeOfAmount r.amount = modeOfAmount first.amount := by
  have hbad2 : ∃ bad ∈ rest, modeOfAmount bad.amount ≠ modeOfAmount first.amount := by
    rcases hbad with ⟨bad, hmem, hne⟩
    exact ⟨bad, hmem, (modeOfAmount_ne_iff _ _).mpr hne⟩
  obtain ⟨st', pfx, bad, sfx, hs2, hrun, hfees, hbf, hbm, hall⟩ :=
    scanRows_err_start rows initScan first rest rfl hsplit hbad2
  refine ⟨{ m with fees := st'.fees }, ?_, rfl, rfl, rfl, rfl,
    pfx, bad, sfx, hs2, ?_, hbf, hbm, hall⟩
  · unfold import_from_excel
    rw [hrun]
  · show st'.fees = feesIn pfx
    rw [hfees]
    rfl

/-- Counterexample to C3 as stated: with a fee row before the failing row,
the mixed-mode error leaves a non-empty fee list (the fee scanned before
the failure), not an empty one. -/
theorem C3_counterexample :
    import_from_excel baseModel demoRows3
      = ImportResult.mixedModeError
          { baseModel with fees := [⟨"F", "percentage", 5, 0⟩] }
    ∧ ([⟨"F", "percentage", 5, 0⟩] : List FeeItem) ≠ [] := by
  constructor
  · decide
  · decide

/-- Witness for C3 on the same three-row spreadsheet. -/
theorem C3_mixed_mode_abort_witness :
    ∃ res, import_from_excel baseModel demoRows3 = ImportResult.mixedModeError res
      ∧ res.categories = baseModel.categories ∧ res.groups = baseModel.groups
      ∧ res.import_mode = baseModel.import_mode
      ∧ res.grand_total = baseModel.grand_total
      ∧ ∃ pfx bad sfx, demoRows3 = pfx ++ bad :: sfx
          ∧ res.fees = feesIn pfx
          ∧ isFeeRow bad = false
          ∧ modeOfAmount bad.amount ≠ modeOfAmount (⟨"G", "A", 10, 0⟩ : Row).amount
          ∧ ∀ r ∈ pfx, isFeeRow r = true
              ∨ modeOfAmount r.amount = modeOfAmount (⟨"G", "A", 10, 0⟩ : Row).amount :=
  C3_mixed_mode_abort baseModel demoRows3 ⟨"G", "A", 10, 0⟩ [⟨"G", "B", 0, 20⟩]
    (by decide) ⟨⟨"G", "B", 0, 20⟩, by decide, by decide⟩

/-! Claim C4: the post-import normalization when amount mode is detected,
with the lemmas about the redistribution it triggers. -/

/-- lockedPass fixes unlocked categories. -/
theorem lockedPass_unlocked (st : ℚ) (c : Category) (h : c.lock_type = 0) :
    lockedPass st c = c := by
  unfold lockedPass
  rw [if_neg (by omega), if_neg (by omega)]

/-- feeUpdate does not change the fee type. -/
theorem feeUpdate_fee_type (st : ℚ) (f : FeeItem) :
    (feeUpdate st f).fee_type = f.fee_type := by
  unfold feeUpdate
  split <;> rfl

/-- feeUpdate does not change the fee value. -/
theorem feeUpdate_value (st : ℚ) (f : FeeItem) :
    (feeUpdate st f).value = f.value := by
  unfold feeUpdate
  split <;> rfl

/-- Converting a percentage-or-fixed fee always yields a percentage fee. -/
theorem feeConvert_fee_type (T : ℚ) (f : FeeItem)
    (h : f.fee_type = "percentage" ∨ f.fee_type = "fixed") :
    (feeConvert T f).fee_type = "percentage" := by
  unfold feeConvert
  rcases h with h | h
  · rw [if_neg (by rw [h]; decide)]
    exact h
  · rw [if_pos h]

/-- A sum of integer-valued amounts is an integer. -/
theorem sum_amounts_int :
    ∀ l : List Category, (∀ c ∈ l, ∃ k : ℤ, c.amount = (k : ℚ)) →
      ∃ K : ℤ, (l.map (fun c => c.amount)).sum = (K : ℚ)
  | [], _ => ⟨0, by simp⟩
  | c :: cs, h => by
    obtain ⟨k, hk⟩ := h c (List.mem_cons_self c cs)
    obtain ⟨K, hK⟩ := sum_amounts_int cs (fun d hd => h d (List.mem_cons_of_mem c hd))
    exact ⟨k + K, by rw [List.map_cons, List.sum_cons, hk, hK]; push_cast; ring⟩

/-- When every category is unlocked and the percentages sum to exactly
100, redistribution just re-derives each amount from the unchanged
percentage. -/
theorem redistribute_pct_preserved (st : ℚ) (l : List Category)
    (h0 : ∀ c ∈ l, c.lock_type = 0) (hne : l ≠ [])
    (hsum : (l.map (fun c => c.percentage)).sum = 100) :
    redistribute st l = l.map (fun c => setUnlockedPct st c.percentage c) := by
  have hfil : l.filter (fun c => c.lock_type == 0) = l :=
    List.filter_eq_self.mpr (fun c hc => by simp [h0 c hc])
  have hfix : fixedPctTotal l = 0 := by
    unfold fixedPctTotal
    rw [List.filter_eq_nil_iff.mpr (fun c hc => by simp [isLocked, h0 c hc])]
    rfl
  simp only [redistribute]
  rw [hfil, hsum, hfix]
  rw [if_pos (List.length_pos.mpr hne), if_neg (by norm_num : ¬ (100 : ℚ) ≤ 0)]
  refine List.map_congr_left (fun c hc => ?_)
  rw [if_pos (by simp [h0 c hc])]
  rw [show c.percentage / 100 * (100 - 0) = c.percentage by ring]

/-- C4 as forced by the code: on a successful amount-mode import, the keep
flag is set, the mode is forced to percentage, every fee ends up a
percentage fee with the converted value, grand_total becomes the category
total plus the fee contributions, each percentage becomes the amount's
share of the total — and, provided the imported amounts are whole numbers
and the converted fees leave 1 + total/100 nonzero, the final recalc
reproduces the imported amounts exactly. -/
theorem C4_amount_import_normalization (m : BudgetModel) (rows : List Row)
    (st : ScanState) (T : ℚ)
    (hscan : scanRows initScan rows = Except.ok st)
    (hmode : st.mode = some "amount")
    (hTdef : T = (st.cats.map (fun c => c.amount)).sum)
    (hint : ∀ c ∈ st.cats, ∃ k : ℤ, c.amount = (k : ℚ))
    (hden : 1 + ((st.fees.map (feeConvert T)).map (fun f => f.value)).sum / 100 ≠ 0) :
    ∃ r, import_from_excel m rows = ImportResult.ok r
      ∧ r.keep_category_amounts = true
      ∧ r.import_mode = "percentage"
      ∧ (∀ f ∈ r.fees, f.fee_type = "percentage")
      ∧ r.fees.map (fun f => f.value)
          = (st.fees.map (feeConvert T)).map (fun f => f.value)
      ∧ r.grand_total = T + (((st.fees.map (feeConvert T)).filter
          (fun f => f.fee_type == "percentage")).map (fun f => f.value / 100 * T)).sum
      ∧ r.subtotal = T
      ∧ r.categories.map (fun c => c.amount) = st.cats.map (fun c => c.amount)
      ∧ r.categories.map (fun c => c.percentage)
          = st.cats.map (fun c => c.amount / T * 100) := by
  have hP := scanRows_inv rows initScan st hscan scanInv_init
  have hlock0 : ∀ c ∈ st.cats, c.lock_type = 0 := fun c hc => (hP.2.1 c hc).1
  have hcne : st.cats ≠ [] := (hP.2.2.2 hmode).1
  have hpos : (0 : ℚ) < T := by
    rw [hTdef]
    apply List.sum_pos
    · intro x hx
      rcases List.mem_map.mp hx with ⟨c, hc, rfl⟩
      exact (hP.2.2.2 hmode).2 c hc
    · intro hnil
      exact hcne (List.map_eq_nil.mp hnil)
  have hTne : T ≠ 0 := ne_of_gt hpos
  obtain ⟨K, hK⟩ : ∃ K : ℤ, T = (K : ℚ) := by
    rw [hTdef]
    exact sum_amounts_int st.cats hint
  have hSfees : (importedState m st).fees = st.fees.map (feeConvert T) := by
    simp only [importedState]
    rw [← hTdef]
  have hSgt : (importedState m st).grand_total
      = T + (((st.fees.map (feeConvert T)).filter
          (fun f => f.fee_type == "percentage")).map (fun f => f.value / 100 * T)).sum := by
    simp only [importedState]
    rw [← hTdef]
  have hScats : (importedState m st).categories
      = st.cats.map (fun c => { c with percentage := c.amount / T * 100 }) := by
    simp only [importedState]
    rw [← hTdef, if_pos hpos]
  have hSmode : (importedState m st).import_mode = "percentage" := rfl
  have hSkeep : (importedState m st).keep_category_amounts = true := rfl
  have hfty : ∀ f ∈ st.fees.map (feeConvert T), f.fee_type = "percentage" := by
    intro f hf
    rcases List.mem_map.mp hf with ⟨f0, hf0, rfl⟩
    exact feeConvert_fee_type T f0 (hP.2.2.1 f0 hf0)
  have hst : recalcSubtotal (importedState m st) = T := by
    unfold recalcSubtotal
    by_cases hf : st.fees = []
    · rw [if_pos (by rw [hSfees, hf]; rfl)]
      rw [hSgt, hf]
      show T + ((([] : List FeeItem).filter _).map _).sum = T
      simp
    · rw [if_neg (by
        rw [hSfees]
        intro hx
        exact hf (List.map_eq_nil.mp hx))]
      rw [if_neg (by rw [hSmode]; decide)]
      have hfix : fixedFeeTotal (importedState m st) = 0 := by
        unfold fixedFeeTotal
        rw [hSfees]
        rw [List.filter_eq_nil_iff.mpr (fun f hf2 => by
          rw [hfty f hf2]
          decide)]
        rfl
      have hpct : totalFeePct (importedState m st)
          = ((st.fees.map (feeConvert T)).map (fun f => f.value)).sum := by
        unfold totalFeePct
        rw [hSfees]
        rw [List.filter_eq_self.mpr (fun f hf2 => by
          rw [hfty f hf2]
          decide)]
      rw [hpct, if_pos hden, hfix]
      have hfilall : (st.fees.map (feeConvert T)).filter
          (fun f => f.fee_type == "percentage") = st.fees.map (feeConvert T) :=
        List.filter_eq_self.mpr (fun f hf2 => by
          rw [hfty f hf2]
          decide)
      have hcontrib : (((st.fees.map (feeConvert T)).filter
          (fun f => f.fee_type == "percentage")).map (fun f => f.value / 100 * T)).sum
          = ((st.fees.map (feeConvert T)).map (fun f => f.value)).sum * (T / 100) := by
        rw [hfilall]
        rw [List.map_congr_left (fun f _ => by
          show f.value / 100 * T = f.value * (T / 100)
          ring)]
        exact List.sum_map_mul_right _ _ _
      have harg : (importedState m st).grand_total - 0
          = T * (1 + ((st.fees.map (feeConvert T)).map (fun f => f.value)).sum / 100) := by
        rw [hSgt, hcontrib]
        ring
      rw [harg, mul_div_cancel_right₀ T hden, hK, pyRound_intCast]
  have hsum100 : ((st.cats.map (fun c =>
      { c with percentage := c.amount / T * 100 })).map (fun c => c.percentage)).sum
      = 100 := by
    rw [List.map_map]
    rw [List.map_congr_left (fun c _ => by
      show c.amount / T * 100 = c.amount * (100 / T)
      ring)]
    rw [List.sum_map_mul_right, ← hTdef]
    field_simp
  have hcats : (recalc (importedState m st)).categories
      = (st.cats.map (fun c => { c with percentage := c.amount / T * 100 })).map
          (fun c => setUnlockedPct T c.percentage c) := by
    rw [recalc_categories, recalcCategories_eq]
    rw [if_neg (by rw [hSmode]; decide)]
    rw [hst, hScats]
    rw [mapMemId (lockedPass T) _ (fun c hc => by
      rcases List.mem_map.mp hc with ⟨c0, hc0, rfl⟩
      exact lockedPass_unlocked T _ (hlock0 c0 hc0))]
    exact redistribute_pct_preserved T _
      (fun c hc => by
        rcases List.mem_map.mp hc with ⟨c0, hc0, rfl⟩
        exact hlock0 c0 hc0)
      (fun hnil => hcne (List.map_eq_nil.mp hnil))
      hsum100
  refine ⟨recalc (importedState m st), ?_, ?_, ?_, ?_, ?_, ?_, ?_, ?_, ?_⟩
  · unfold import_from_excel
    rw [hscan]
    dsimp only
    rw [if_pos hmode]
  · rw [recalc_keep, hSkeep]
  · rw [recalc_import_mode, hSmode]
  · intro f hf
    rw [recalc_fees] at hf
    unfold recalcFees at hf
    rw [hSfees] at hf
    rcases List.mem_map.mp hf with ⟨f0, hf0, rfl⟩
    rw [feeUpdate_fee_type]
    exact hfty f0 hf0
  · rw [recalc_fees]
    unfold recalcFees
    rw [hSfees, List.map_map]
    exact List.map_congr_left (fun f _ => feeUpdate_value _ f)
  · rw [recalc_grand_total, hSgt]
  · rw [recalc_subtotal, hst]
  · rw [hcats, List.map_map, List.map_map]
    refine List.map_congr_left (fun c hc => ?_)
    obtain ⟨k, hk⟩ := hint c hc
    show ((pyRound (T * ((c.amount / T * 100) / 100)) : ℤ) : ℚ) = c.amount
    rw [show T * ((c.amount / T * 100) / 100) = c.amount by field_simp; ring]
    rw [hk, pyRound_intCast]
  · rw [hcats, List.map_map, List.map_map]
    exact List.map_congr_left (fun c _ => rfl)

/-- Counterexample to C4 as stated: importing a single category with the
fractional amount 1/2 succeeds in amount mode, yet the final recalc rounds
the re-derived amount to 0 — the imported amount is not preserved. -/
theorem C4_counterexample :
    (importOk (import_from_excel baseModel demoRows4)).map
      (fun r => r.categories.map (fun c => c.amount)) = some [0]
    ∧ (1 : ℚ) / 2 ≠ 0 := by
  have hscan : scanRows initScan demoRows4
      = Except.ok ⟨[], [⟨"A", 0, 1/2, none, 0⟩], [("G", [0])], some "amount"⟩ := by
    simp only [demoRows4, scanRows]
    rw [if_neg (by decide)]
    dsimp only [initScan]
    rw [show modeOfAmount ((⟨"G", "A", 1/2, 0⟩ : Row).amount) = "amount" from
      (modeOfAmount_eq_amount _).mpr (by norm_num)]
    rfl
  have hpr : pyRound ((1 : ℚ)/2) = 0 :=
    pyRound_eq_half_even _ 0 (by norm_num) (by decide)
  constructor
  · unfold import_from_excel
    rw [hscan]
    dsimp only
    rw [if_pos rfl]
    unfold importOk
    dsimp only [Option.map]
    rw [recalc_categories, recalcCategories_eq]
    rw [if_neg (by decide)]
    have hstv : recalcSubtotal (importedState baseModel
        ⟨[], [⟨"A", 0, 1/2, none, 0⟩], [("G", [0])], some "amount"⟩) = 1/2 := by
      unfold recalcSubtotal
      rw [if_pos (show (importedState baseModel
        ⟨[], [⟨"A", 0, 1/2, none, 0⟩], [("G", [0])], some "amount"⟩).fees
          = [] from rfl)]
      show (1 : ℚ)/2 + 0 + _ = 1/2
      norm_num
    rw [hstv]
    have hSc : (importedState baseModel
        ⟨[], [⟨"A", 0, 1/2, none, 0⟩], [("G", [0])], some "amount"⟩).categories
        = [⟨"A", 100, 1/2, none, 0⟩] := by
      simp only [importedState]
      rw [show (List.map (fun c => c.amount)
          [(⟨"A", (0 : ℚ), 1/2, none, 0⟩ : Category)]).sum = 1/2 by norm_num]
      rw [if_pos (by norm_num : (0 : ℚ) < 1/2)]
      show [(⟨"A", (1 : ℚ)/2 / (1/2) * 100, 1/2, none, 0⟩ : Category)] = _
      norm_num
    rw [hSc]
    rw [mapMemId (lockedPass (1/2)) _ (fun c hc => by
      rcases List.mem_singleton.mp hc with rfl
      exact lockedPass_unlocked _ _ rfl)]
    rw [redistribute_pct_preserved (1/2) _
      (fun c hc => by
        rcases List.mem_singleton.mp hc with rfl
        rfl)
      (by simp)
      (by norm_num)]
    show some [((pyRound ((1 : ℚ)/2 * (100 / 100)) : ℤ) : ℚ)] = some [0]
    rw [show (1 : ℚ)/2 * (100 / 100) = 1/2 by norm_num]
    rw [hpr]
    norm_num
  · norm_num

/-- Witness for C4 on an integer-amount spreadsheet with one percentage
fee row. -/
theorem C4_amount_import_normalization_witness :
    ∃ r, import_from_excel baseModel demoRows4W = ImportResult.ok r
      ∧ r.keep_category_amounts = true
      ∧ r.import_mode = "percentage"
      ∧ (∀ f ∈ r.fees, f.fee_type = "percentage")
      ∧ r.fees.map (fun f => f.value)
          = (([⟨"F", "percentage", 10, 0⟩] : List FeeItem).map
              (feeConvert 1000)).map (fun f => f.value)
      ∧ r.grand_total = 1000 + (((([⟨"F", "percentage", 10, 0⟩] : List FeeItem).map
          (feeConvert 1000)).filter (fun f => f.fee_type == "percentage")).map
          (fun f => f.value / 100 * 1000)).sum
      ∧ r.subtotal = 1000
      ∧ r.categories.map (fun c => c.amount)
          = ([⟨"A", 0, 600, none, 0⟩, ⟨"B", 0, 400, none, 0⟩] :
              List Category).map (fun c => c.amount)
      ∧ r.categories.map (fun c => c.percentage)
          = ([⟨"A", 0, 600, none, 0⟩, ⟨"B", 0, 400, none, 0⟩] :
              List Category).map (fun c => c.amount / 1000 * 100) := by
  have hscan : scanRows initScan demoRows4W
      = Except.ok ⟨[⟨"F", "percentage", 10, 0⟩],
          [⟨"A", 0, 600, none, 0⟩, ⟨"B", 0, 400, none, 0⟩],
          [("G", [0, 1])], some "amount"⟩ := by
    rfl
  exact C4_amount_import_normalization baseModel demoRows4W
    ⟨[⟨"F", "percentage", 10, 0⟩],
      [⟨"A", 0, 600, none, 0⟩, ⟨"B", 0, 400, none, 0⟩],
      [("G", [0, 1])], some "amount"⟩ 1000 hscan rfl (by norm_num)
    (by
      intro c hc
      fin_cases hc
      · exact ⟨600, by norm_num⟩
      · exact ⟨400, by norm_num⟩)
    (by
      rw [show ([⟨"F", "percentage", 10, 0⟩] : List FeeItem).map (feeConvert 1000)
          = [⟨"F", "percentage", 10, 0⟩] from rfl]
      norm_num)

/-! Claim C7: idempotence of recalc, with the stability lemmas of each
recomputation stage. -/

/-- Re-assigning the stored percentage of a freshly redistributed
category changes nothing. -/
theorem setUnlockedPct_idem (st p : ℚ) (c : Category) :
    setUnlockedPct st p (setUnlockedPct st p c) = setUnlockedPct st p c := rfl

/-- Explicit form of lockedPass on a Lock Amount category. -/
theorem lockedPass_lock1 (st : ℚ) (c : Category) (h : c.lock_type = 1) :
    lockedPass st c
      = { c with amount := c.amount_override.getD c.amount,
                 percentage := if st ≠ 0
                   then (c.amount_override.getD c.amount) / st * 100 else 0 } := by
  unfold lockedPass
  rw [if_pos h]

/-- Explicit form of lockedPass on a Lock Percentage category. -/
theorem lockedPass_lock2 (st : ℚ) (c : Category) (h : c.lock_type = 2) :
    lockedPass st c
      = { c with amount := ((pyRound (st * (c.percentage / 100)) : ℤ) : ℚ) } := by
  unfold lockedPass
  rw [if_neg (by omega), if_pos h]

/-- lockedPass fixes any category that is neither Lock Amount nor Lock
Percentage. -/
theorem lockedPass_other (st : ℚ) (c : Category) (h1 : ¬ c.lock_type = 1)
    (h2 : ¬ c.lock_type = 2) : lockedPass st c = c := by
  unfold lockedPass
  rw [if_neg h1, if_neg h2]

/-- The first percentage-mode pass is idempotent on each category. -/
theorem lockedPass_idem (st : ℚ) (c : Category) :
    lockedPass st (lockedPass st c) = lockedPass st c := by
  by_cases h1 : c.lock_type = 1
  · rw [lockedPass_lock1 st c h1]
    refine (lockedPass_lock1 st _ ?_).trans ?_
    · exact h1
    · cases ho : c.amount_override with
      | none => simp [ho]
      | some a => simp [ho]
  · by_cases h2 : c.lock_type = 2
    · rw [lockedPass_lock2 st c h2]
      refine (lockedPass_lock2 st _ ?_).trans rfl
      exact h2
    · rw [lockedPass_other st c h1 h2, lockedPass_other st c h1 h2]

/-- The fee pass is idempotent on each fee. -/
theorem feeUpdate_idem (st : ℚ) (f : FeeItem) :
    feeUpdate st (feeUpdate st f) = feeUpdate st f := by
  unfold feeUpdate
  by_cases h : f.fee_type = "percentage"
  · rw [if_pos h, if_pos (show f.fee_type = "percentage" from h)]
  · rw [if_neg h, if_neg (show ¬ f.fee_type = "percentage" from h)]

/-- The amount-mode category pass is idempotent on each category. -/
theorem amountModePct_idem (st : ℚ) (c : Category) :
    amountModePct st (amountModePct st c) = amountModePct st c := rfl

/-- redistribute written as one map with the branch percentage newPct. -/
theorem redistribute_eq_map (st : ℚ) (l : List Category)
    (hn : 0 < (l.filter (fun c => c.lock_type == 0)).length) :
    redistribute st l
      = l.map (fun c => if c.lock_type == 0
          then setUnlockedPct st (newPct l c) c else c) := by
  simp only [redistribute, newPct]
  rw [if_pos hn]
  by_cases hS : ((l.filter (fun c => c.lock_type == 0)).map
      (fun c => c.percentage)).sum ≤ 0
  · rw [if_pos hS]
    refine List.map_congr_left (fun c _ => ?_)
    by_cases h0 : (c.lock_type == 0) = true
    · rw [if_pos h0, if_pos h0, if_pos hS]
    · rw [if_neg h0, if_neg h0]
  · rw [if_neg hS]
    refine List.map_congr_left (fun c _ => ?_)
    by_cases h0 : (c.lock_type == 0) = true
    · rw [if_pos h0, if_pos h0, if_neg hS]
    · rw [if_neg h0, if_neg h0]

/-- The redistribution map leaves the locked sublist untouched. -/
theorem filter_locked_redisMap (st : ℚ) (f : Category → ℚ) (l : List Category) :
    ((l.map (fun c => if c.lock_type == 0
        then setUnlockedPct st (f c) c else c)).filter isLocked)
      = l.filter isLocked := by
  rw [filterMapComm _ isLocked (fun c => by
    by_cases h0 : (c.lock_type == 0) = true
    · rw [if_pos h0]
      unfold isLocked
      rw [setUnlockedPct_lock_type]
    · rw [if_neg h0])]
  refine mapMemId _ _ (fun c hc => ?_)
  have hl := (List.mem_filter.mp hc).2
  rw [if_neg (by
    unfold isLocked at hl
    simp only [Bool.or_eq_true, beq_iff_eq] at hl
    simp only [beq_iff_eq]
    omega)]

/-- The redistribution map turns the unlocked sublist into its image. -/
theorem filter_unlocked_redisMap (st : ℚ) (f : Category → ℚ) (l : List Category) :
    ((l.map (fun c => if c.lock_type == 0
        then setUnlockedPct st (f c) c else c)).filter (fun c => c.lock_type == 0))
      = (l.filter (fun c => c.lock_type == 0)).map
          (fun c => setUnlockedPct st (f c) c) := by
  rw [filterMapComm _ _ (fun c => by
    by_cases h0 : (c.lock_type == 0) = true
    · rw [if_pos h0, setUnlockedPct_lock_type]
    · rw [if_neg h0])]
  refine List.map_congr_left (fun c hc => ?_)
  rw [if_pos (List.mem_filter.mp hc).2]

/-- Redistribution does not change the locked percentage total. -/
theorem fixedPctTotal_redistribute (st : ℚ) (l : List Category) :
    fixedPctTotal (redistribute st l) = fixedPctTotal l := by
  by_cases hn : 0 < (l.filter (fun c => c.lock_type == 0)).length
  · rw [redistribute_eq_map st l hn]
    unfold fixedPctTotal
    rw [filter_locked_redisMap]
  · simp only [redistribute]
    rw [if_neg hn]

/-- The percentages redistribution assigns to the unlocked categories sum
to the available percentage. -/
theorem sum_newPct (l : List Category)
    (hn : 0 < (l.filter (fun c => c.lock_type == 0)).length) :
    ((l.filter (fun c => c.lock_type == 0)).map (fun c => newPct l c)).sum
      = 100 - fixedPctTotal l := by
  have hne : (((l.filter (fun c => c.lock_type == 0)).length : ℚ)) ≠ 0 := by
    exact_mod_cast Nat.pos_iff_ne_zero.mp hn
  by_cases hS : ((l.filter (fun c => c.lock_type == 0)).map
      (fun c => c.percentage)).sum ≤ 0
  · rw [show (l.filter (fun c => c.lock_type == 0)).map (fun c => newPct l c)
        = (l.filter (fun c => c.lock_type == 0)).map (fun _ =>
          (100 - fixedPctTotal l)
            / (((l.filter (fun c => c.lock_type == 0)).length : ℚ)))
      from List.map_congr_left (fun c _ => by
        simp only [newPct]
        rw [if_pos hS])]
    rw [sumMapConst, mul_comm, div_mul_cancel₀ _ hne]
  · rw [show (l.filter (fun c => c.lock_type == 0)).map (fun c => newPct l c)
        = (l.filter (fun c => c.lock_type == 0)).map (fun c => c.percentage
          * ((100 - fixedPctTotal l) / ((l.filter (fun c => c.lock_type == 0)).map
              (fun c => c.percentage)).sum))
      from List.map_congr_left (fun c _ => by
        simp only [newPct]
        rw [if_neg hS]
        ring)]
    rw [List.sum_map_mul_right]
    push_neg at hS
    rw [mul_comm, div_mul_cancel₀ _ (ne_of_gt hS)]

/-- The unlocked percentages of a redistributed list sum to the available
percentage of the original. -/
theorem sum_unlocked_redistribute (st : ℚ) (l : List Category)
    (hn : 0 < (l.filter (fun c => c.lock_type == 0)).length) :
    (((redistribute st l).filter (fun c => c.lock_type == 0)).map
        (fun c => c.percentage)).sum = 100 - fixedPctTotal l := by
  rw [redistribute_eq_map st l hn, filter_unlocked_redisMap, List.map_map]
  exact sum_newPct l hn

/-- Redistribution preserves the number of unlocked categories. -/
theorem length_unlocked_redistribute (st : ℚ) (l : List Category)
    (hn : 0 < (l.filter (fun c => c.lock_type == 0)).length) :
    ((redistribute st l).filter (fun c => c.lock_type == 0)).length
      = (l.filter (fun c => c.lock_type == 0)).length := by
  rw [redistribute_eq_map st l hn, filter_unlocked_redisMap, List.length_map]

/-- A redistribution whose per-category assignment fixes every unlocked
category is the identity. -/
theorem redistribute_fixpoint (st : ℚ) (C : List Category)
    (hn : 0 < (C.filter (fun c => c.lock_type == 0)).length)
    (hself : ∀ c ∈ C, (c.lock_type == 0) = true →
      setUnlockedPct st (newPct C c) c = c) :
    redistribute st C = C := by
  rw [redistribute_eq_map st C hn]
  refine mapMemId _ _ (fun c hc => ?_)
  by_cases h0 : (c.lock_type == 0) = true
  · rw [if_pos h0]
    exact hself c hc h0
  · rw [if_neg h0]

/-- The percentage a second redistribution would assign to an already
redistributed unlocked category is the one it already carries, as long as
the available percentage is not negative. -/
theorem newPct_redistribute (st : ℚ) (l : List Category)
    (hn : 0 < (l.filter (fun c => c.lock_type == 0)).length)
    (hA : 0 ≤ 100 - fixedPctTotal l) (c0 : Category) :
    newPct (redistribute st l) (setUnlockedPct st (newPct l c0) c0)
      = newPct l c0 := by
  generalize hP : newPct l c0 = P
  simp only [newPct]
  rw [sum_unlocked_redistribute st l hn, fixedPctTotal_redistribute,
    length_unlocked_redistribute st l hn]
  rcases lt_or_eq_of_le hA with hApos | hA0
  · rw [if_neg (by linarith)]
    exact div_mul_cancel₀ _ (ne_of_gt hApos)
  · rw [if_pos (by linarith)]
    rw [← hA0, zero_div, ← hP]
    simp only [newPct]
    by_cases hS : ((l.filter (fun d => d.lock_type == 0)).map
        (fun d => d.percentage)).sum ≤ 0
    · rw [if_pos hS, ← hA0, zero_div]
    · rw [if_neg hS, ← hA0, mul_zero]

/-- Redistribution is idempotent whenever the locked percentage total does
not exceed 100. -/
theorem redistribute_idem (st : ℚ) (l : List Category)
    (hA : 0 ≤ 100 - fixedPctTotal l) :
    redistribute st (redistribute st l) = redistribute st l := by
  by_cases hn : 0 < (l.filter (fun c => c.lock_type == 0)).length
  case neg =>
    have h0 : redistribute st l = l := by
      simp only [redistribute]
      rw [if_neg hn]
    rw [h0, h0]
  case pos =>
    refine redistribute_fixpoint st (redistribute st l)
      (by rw [length_unlocked_redistribute st l hn]; exact hn)
      (fun x hx h0x => ?_)
    rw [redistribute_eq_map st l hn] at hx
    rcases List.mem_map.mp hx with ⟨c0, hc0, rfl⟩
    by_cases h00 : (c0.lock_type == 0) = true
    · rw [if_pos h00]
      rw [newPct_redistribute st l hn hA c0]
      exact setUnlockedPct_idem st (newPct l c0) c0
    · rw [if_neg h00] at h0x
      exact absurd h0x h00

/-- pyRound of a negated numeral. -/
@[simp] theorem pyRound_neg_ofNat (n : ℕ) [n.AtLeastTwo] :
    pyRound (-(OfNat.ofNat n : ℚ)) = -(OfNat.ofNat n : ℤ) := by
  have h := pyRound_intCast (-(OfNat.ofNat n : ℤ))
  push_cast at h
  exact h

/-- Every category produced by the percentage-mode pipeline (locked pass
then redistribution) is already a fixed point of the locked pass. -/
theorem map_lockedPass_redistribute (st : ℚ) (l : List Category) :
    (redistribute st (l.map (lockedPass st))).map (lockedPass st)
      = redistribute st (l.map (lockedPass st)) := by
  have hLfix : ∀ d ∈ l.map (lockedPass st), lockedPass st d = d := by
    intro d hd
    rcases List.mem_map.mp hd with ⟨d0, _, rfl⟩
    exact lockedPass_idem st d0
  refine mapMemId _ _ (fun c hc => ?_)
  by_cases hn : 0 < ((l.map (lockedPass st)).filter
      (fun d => d.lock_type == 0)).length
  · rw [redistribute_eq_map st _ hn] at hc
    rcases List.mem_map.mp hc with ⟨c0, hc0, rfl⟩
    by_cases h0 : (c0.lock_type == 0) = true
    · rw [if_pos h0]
      have h0e : c0.lock_type = 0 := by simpa using h0
      refine lockedPass_other st _ ?_ ?_
      · rw [setUnlockedPct_lock_type, h0e]
        omega
      · rw [setUnlockedPct_lock_type, h0e]
        omega
    · rw [if_neg h0]
      exact hLfix c0 hc0
  · simp only [redistribute] at hc
    rw [if_neg hn] at hc
    exact hLfix c hc

/-- The fee pass changes neither fee types nor values, so the
percentage-fee total survives a recalc. -/
theorem totalFeePct_recalc (m : BudgetModel) :
    totalFeePct (recalc m) = totalFeePct m := by
  unfold totalFeePct
  rw [recalc_fees]
  unfold recalcFees
  rw [filterMapComm _ _ (fun f => by rw [feeUpdate_fee_type]) m.fees,
    List.map_map]
  refine congrArg List.sum (List.map_congr_left (fun f _ => ?_))
  simp only [Function.comp_apply]
  exact feeUpdate_value _ f

/-- The fixed-fee total also survives a recalc. -/
theorem fixedFeeTotal_recalc (m : BudgetModel) :
    fixedFeeTotal (recalc m) = fixedFeeTotal m := by
  unfold fixedFeeTotal
  rw [recalc_fees]
  unfold recalcFees
  rw [filterMapComm _ _ (fun f => by rw [feeUpdate_fee_type]) m.fees,
    List.map_map]
  refine congrArg List.sum (List.map_congr_left (fun f _ => ?_))
  simp only [Function.comp_apply]
  exact feeUpdate_value _ f

/-- In amount mode, recalc leaves the category amounts alone, so their sum
survives a recalc. -/
theorem sum_amounts_recalc_amount (m : BudgetModel)
    (h : m.import_mode = "amount") :
    ((recalc m).categories.map (fun c => c.amount)).sum
      = (m.categories.map (fun c => c.amount)).sum := by
  rw [recalc_categories, recalcCategories_eq, if_pos h, List.map_map]
  refine congrArg List.sum (List.map_congr_left (fun c _ => ?_))
  simp only [Function.comp_apply]
  rfl

/-- The subtotal derivation is stable under recalc: every input it reads
(fees, grand total, import mode, amount sums) is preserved or recomputed
to the same value. -/
theorem recalcSubtotal_recalc (m : BudgetModel) :
    recalcSubtotal (recalc m) = recalcSubtotal m := by
  by_cases hf : m.fees = []
  · have hf2 : (recalc m).fees = [] := by
      rw [recalc_fees]
      unfold recalcFees
      rw [hf, List.map_nil]
    unfold recalcSubtotal
    rw [if_pos hf2, if_pos hf, recalc_grand_total]
  · have hf2 : ¬ (recalc m).fees = [] := by
      simpa [recalcFees, List.map_eq_nil_iff] using hf
    unfold recalcSubtotal
    rw [if_neg hf2, if_neg hf]
    by_cases hm : m.import_mode = "amount"
    · rw [if_pos (show (recalc m).import_mode = "amount" from by
        rw [recalc_import_mode]; exact hm), if_pos hm]
      exact sum_amounts_recalc_amount m hm
    · rw [if_neg (show ¬ (recalc m).import_mode = "amount" from by
        rw [recalc_import_mode]; exact hm), if_neg hm]
      rw [totalFeePct_recalc, fixedFeeTotal_recalc, recalc_grand_total]

/-- The fee pass of a second recalc reproduces the fees of the first. -/
theorem recalcFees_recalc (m : BudgetModel) :
    recalcFees (recalc m) = (recalc m).fees := by
  unfold recalcFees
  rw [recalcSubtotal_recalc, recalc_fees]
  show (recalcFees m).map (feeUpdate (recalcSubtotal m)) = recalcFees m
  unfold recalcFees
  rw [List.map_map]
  refine List.map_congr_left (fun f _ => ?_)
  simp only [Function.comp_apply]
  exact feeUpdate_idem _ f

/-- The category pass of a second recalc reproduces the categories of the
first, in amount mode unconditionally and in percentage mode as long as
the recomputed locked percentage total does not exceed 100. -/
theorem recalcCategories_recalc (m : BudgetModel)
    (h : m.import_mode = "amount"
      ∨ fixedPctTotal ((recalc m).categories) ≤ 100) :
    recalcCategories (recalc m) = (recalc m).categories := by
  rw [recalcCategories_eq, recalcSubtotal_recalc, recalc_import_mode,
    recalc_categories]
  by_cases hm : m.import_mode = "amount"
  · rw [if_pos hm, recalcCategories_eq, if_pos hm, List.map_map]
    refine List.map_congr_left (fun c _ => ?_)
    simp only [Function.comp_apply]
    exact amountModePct_idem _ c
  · rw [if_neg hm, recalcCategories_eq, if_neg hm,
      map_lockedPass_redistribute]
    refine redistribute_idem _ _ ?_
    rcases h with hm2 | hA
    · exact absurd hm2 hm
    · rw [recalc_categories, recalcCategories_eq, if_neg hm,
        fixedPctTotal_redistribute] at hA
      linarith

/-- The computed grand total of a second recalc reproduces the first. -/
theorem recalcCGT_recalc (m : BudgetModel) :
    recalcCGT (recalc m) = (recalc m).computed_grand_total := by
  unfold recalcCGT
  rw [recalcSubtotal_recalc, recalcFees_recalc, recalc_fees, recalc_cgt]
  unfold recalcCGT
  by_cases hf : m.fees = []
  · rw [if_neg (show ¬ recalcFees m ≠ [] from by
        simp [recalcFees, hf]), if_neg (show ¬ m.fees ≠ [] from by
        simp [hf])]
  · rw [if_pos (show recalcFees m ≠ [] from by
        simpa [recalcFees, List.map_eq_nil_iff] using hf), if_pos hf]

/-- The derived-field assignments of a second recalc change nothing, under
the C7 proviso. -/
theorem recalcMain_recalc (m : BudgetModel)
    (h : m.import_mode = "amount"
      ∨ fixedPctTotal ((recalc m).categories) ≤ 100) :
    recalcMain (recalc m) = recalc m := by
  unfold recalcMain
  rw [recalcCategories_recalc m h, recalcFees_recalc, recalcCGT_recalc,
    show recalcSubtotal (recalc m) = (recalc m).subtotal from by
      rw [recalcSubtotal_recalc, recalc_subtotal]]

/-- check_over_budget only rewrites the two over-budget fields. -/
theorem check_over_shape (y : BudgetModel) :
    check_over_budget y
      = { y with over_budget := (check_over_budget y).over_budget,
                 over_budget_rows := (check_over_budget y).over_budget_rows }
      := by
  unfold check_over_budget
  by_cases hC : ((y.categories.filter isLocked).map (fun c => c.amount)).sum
      > y.subtotal + 1
  · rw [if_pos hC]
  · rw [if_neg hC]

/-- Running the over-budget check twice is the same as running it once. -/
theorem check_over_idem (x : BudgetModel) :
    check_over_budget (check_over_budget x) = check_over_budget x := by
  rw [check_over_shape (check_over_budget x)]
  obtain ⟨hob, hrows⟩ := check_over_congr (check_over_budget x) x
    (check_over_budget_categories x) (check_over_budget_subtotal x)
  rw [hob, hrows]

/-- C7: recalc is idempotent under the proviso that the model is in amount
mode or the recomputed locked percentage total does not exceed 100 (the
unrestricted statement fails, see the counterexample: a locked total
beyond 100 flips the redistribution between its proportional and
equal-split branches). -/
theorem C7_recalc_idempotent (m : BudgetModel)
    (h : m.import_mode = "amount"
      ∨ fixedPctTotal ((recalc m).categories) ≤ 100) :
    recalc (recalc m) = recalc m := by
  show check_over_budget (recalcMain (recalc m)) = recalc m
  rw [recalcMain_recalc m h]
  exact check_over_idem (recalcMain m)

/-- The percentage-mode witness state has no locked category, so its
recomputed locked percentage total is 0. -/
theorem demoC7W_pct_bound :
    fixedPctTotal ((recalc demoC7W).categories) ≤ 100 := by
  rw [recalc_categories, recalcCategories_eq,
    if_neg (show ¬ demoC7W.import_mode = "amount" from by decide),
    fixedPctTotal_redistribute]
  norm_num [demoC7W, baseModel, fixedPctTotal, isLocked, lockedPass]

/-- Witness for C7: a fee-less percentage-mode model with two unlocked
categories satisfies the proviso and recalc is idempotent on it. -/
theorem C7_recalc_idempotent_witness :
    fixedPctTotal ((recalc demoC7W).categories) ≤ 100
    ∧ recalc (recalc demoC7W) = recalc demoC7W :=
  ⟨demoC7W_pct_bound,
    C7_recalc_idempotent demoC7W (Or.inr demoC7W_pct_bound)⟩

/-- Counterexample to unrestricted idempotence: with a Lock Percentage
category at 150 percent, the first recalc leaves a positive unlocked
percentage sum and splits the negative available percentage
proportionally (-10 and -40), while the second sees a negative sum and
splits it equally (-25 and -25). -/
theorem C7_counterexample :
    (recalc (recalc demoC7)).categories ≠ (recalc demoC7).categories := by
  have hst : recalcSubtotal demoC7 = 100 := by
    norm_num [recalcSubtotal, demoC7, baseModel]
  have hmap1 : [(⟨"L", 150, 0, none, 2⟩ : Category), ⟨"U1", 10, 0, none, 0⟩,
      ⟨"U2", 40, 0, none, 0⟩].map (lockedPass 100)
      = [⟨"L", 150, 150, none, 2⟩, ⟨"U1", 10, 0, none, 0⟩,
         ⟨"U2", 40, 0, none, 0⟩] := by
    norm_num [lockedPass]
    rw [pyRound_eq_of_lt_half 150 150 (by norm_num) (by norm_num)]
    norm_num
  have h1 : (recalc demoC7).categories
      = [⟨"L", 150, 150, none, 2⟩, ⟨"U1", -10, -10, none, 0⟩,
         ⟨"U2", -40, -40, none, 0⟩] := by
    rw [recalc_categories, recalcCategories_eq,
      if_neg (show ¬ demoC7.import_mode = "amount" from by decide), hst,
      show demoC7.categories = [(⟨"L", 150, 0, none, 2⟩ : Category),
        ⟨"U1", 10, 0, none, 0⟩, ⟨"U2", 40, 0, none, 0⟩] from rfl, hmap1]
    norm_num [redistribute, fixedPctTotal, isLocked, setUnlockedPct]
    rw [pyRound_eq_of_lt_half (-10) (-10) (by norm_num) (by norm_num),
      pyRound_eq_of_lt_half (-40) (-40) (by norm_num) (by norm_num)]
    norm_num
  have hst2 : recalcSubtotal (recalc demoC7) = 100 := by
    rw [recalcSubtotal_recalc]
    exact hst
  have hmap2 : [(⟨"L", 150, 150, none, 2⟩ : Category),
      ⟨"U1", -10, -10, none, 0⟩, ⟨"U2", -40, -40, none, 0⟩].map
        (lockedPass 100)
      = [⟨"L", 150, 150, none, 2⟩, ⟨"U1", -10, -10, none, 0⟩,
         ⟨"U2", -40, -40, none, 0⟩] := by
    norm_num [lockedPass]
    rw [pyRound_eq_of_lt_half 150 150 (by norm_num) (by norm_num)]
    norm_num
  have h2 : (recalc (recalc demoC7)).categories
      = [⟨"L", 150, 150, none, 2⟩, ⟨"U1", -25, -25, none, 0⟩,
         ⟨"U2", -25, -25, none, 0⟩] := by
    rw [recalc_categories, recalcCategories_eq,
      if_neg (show ¬ (recalc demoC7).import_mode = "amount" from by
        rw [recalc_import_mode]; decide),
      hst2, h1, hmap2]
    norm_num [redistribute, fixedPctTotal, isLocked, setUnlockedPct]
    rw [pyRound_eq_of_lt_half (-25) (-25) (by norm_num) (by norm_num)]
    norm_num
  rw [h1, h2]
  intro hbad
  norm_num [Category.mk.injEq] at hbad

/-! Claim C9: the table projection, via closed forms of the two
get_table_data loops. -/

/-- An in-range member index contributes its category row. -/
theorem catRowAt_in_range (m : BudgetModel) (i : Nat)
    (h : i < m.categories.length) :
    catRowAt m i = catRowOf i (m.categories.get ⟨i, h⟩) := by
  unfold catRowAt
  rw [List.get?_eq_get h]

/-- Fee rows always carry the fee row type, in both branches. -/
theorem feeRowOf_row_type (m : BudgetModel) (i : Nat) (f : FeeItem) :
    (feeRowOf m i f).row_type = "fee" := by
  unfold feeRowOf
  split <;> rfl

/-- Closed form of the inner member loop when every index is in range:
positions continue from the accumulated table, rows are the member
category rows in order. -/
theorem memberFold_closed (m : BudgetModel) :
    ∀ (idxs : List Nat) (mr0 : List Nat) (d0 : List TableRow),
      (∀ i ∈ idxs, i < m.categories.length) →
      idxs.foldl (memberFold m) (mr0, d0)
        = (mr0 ++ (List.range idxs.length).map (fun j => d0.length + j),
           d0 ++ idxs.map (catRowAt m))
  | [], mr0, d0, _ => by simp
  | i :: idxs, mr0, d0, h => by
    have hi : i < m.categories.length := h i (List.mem_cons_self i idxs)
    have hget : m.categories.get? i = some (m.categories.get ⟨i, hi⟩) :=
      List.get?_eq_get hi
    have hstep : memberFold m (mr0, d0) i
        = (mr0 ++ [d0.length], d0 ++ [catRowAt m i]) := by
      unfold memberFold
      dsimp only
      rw [hget, catRowAt_in_range m i hi]
    rw [List.foldl_cons, hstep,
      memberFold_closed m idxs (mr0 ++ [d0.length]) (d0 ++ [catRowAt m i])
        (fun j hj => h j (List.mem_cons_of_mem i hj))]
    refine Prod.ext ?_ ?_
    · show mr0 ++ [d0.length] ++ (List.range idxs.length).map
          (fun j => (d0 ++ [catRowAt m i]).length + j)
        = mr0 ++ (List.range (i :: idxs).length).map (fun j => d0.length + j)
      rw [List.append_assoc, List.singleton_append, List.length_cons,
        List.range_succ_eq_map, List.map_cons, List.map_map]
      rw [Nat.add_zero]
      refine congrArg (fun t => mr0 ++ d0.length :: t) ?_
      refine List.map_congr_left (fun j _ => ?_)
      simp only [Function.comp_apply, List.length_append, List.length_cons,
        List.length_nil]
      omega
    · show d0 ++ [catRowAt m i] ++ idxs.map (catRowAt m)
        = d0 ++ (i :: idxs).map (catRowAt m)
      rw [List.append_assoc, List.map_cons, List.singleton_append]

/-- Closed form of the outer group loop: with in-range member indices,
pairwise distinct labels, and labels fresh for the accumulated mapping,
each group appends its block and registers its mapping entry. -/
theorem groupFold_closed (m : BudgetModel) :
    ∀ (gs : List (String × List Nat)) (d0 : List TableRow)
      (gm0 : List (String × GroupEntry)),
      (∀ g ∈ gs, ∀ i ∈ g.2, i < m.categories.length) →
      (gs.map Prod.fst).Nodup →
      (∀ g ∈ gs, gm0.any (fun p => p.1 == g.1) = false) →
      gs.foldl (groupStep m) (d0, gm0)
        = (d0 ++ (gs.map (blockOf m)).flatten,
           gm0 ++ entriesFrom m d0.length gs)
  | [], d0, gm0, _, _, _ => by simp [entriesFrom]
  | g :: gs, d0, gm0, hin, hnd, hfresh => by
    rw [List.map_cons, List.nodup_cons] at hnd
    have hstep : groupStep m (d0, gm0) g
        = (d0 ++ blockOf m g,
           gm0 ++ [(g.1,
             ⟨(List.range g.2.length).map (fun j => d0.length + j),
              d0.length + g.2.length⟩)]) := by
      simp only [groupStep]
      rw [memberFold_closed m g.2 [] d0 (hin g (List.mem_cons_self g gs))]
      unfold mapInsert
      rw [if_neg (by
        rw [hfresh g (List.mem_cons_self g gs)]
        exact Bool.false_ne_true)]
      unfold blockOf
      simp [List.append_assoc]
    have hIH := groupFold_closed m gs (d0 ++ blockOf m g)
      (gm0 ++ [(g.1,
         ⟨(List.range g.2.length).map (fun j => d0.length + j),
          d0.length + g.2.length⟩)])
      (fun g2 h2 => hin g2 (List.mem_cons_of_mem g h2))
      hnd.2
      (fun g2 h2 => by
        rw [List.any_append, hfresh g2 (List.mem_cons_of_mem g h2)]
        simp only [List.any_cons, List.any_nil, Bool.false_or, Bool.or_false]
        rw [beq_eq_false_iff_ne]
        intro hbad
        exact hnd.1 (by rw [hbad]; exact List.mem_map_of_mem Prod.fst h2))
    rw [List.foldl_cons, hstep, hIH]
    have hX : (d0 ++ blockOf m g).length = d0.length + g.2.length + 1 := by
      simp [blockOf]
      omega
    refine Prod.ext ?_ ?_
    · show d0 ++ blockOf m g ++ (gs.map (blockOf m)).flatten
        = d0 ++ ((g :: gs).map (blockOf m)).flatten
      rw [List.map_cons, List.flatten_cons, List.append_assoc]
    · show gm0 ++ [(g.1,
          ⟨(List.range g.2.length).map (fun j => d0.length + j),
           d0.length + g.2.length⟩)]
            ++ entriesFrom m (d0 ++ blockOf m g).length gs
        = gm0 ++ entriesFrom m d0.length (g :: gs)
      rw [hX, List.append_assoc, List.singleton_append]
      rfl

/-- Closed form of get_table_data: the group blocks in order, the subtotal
row, the fee rows, the grand-total row, and the closed-form mapping. -/
theorem get_table_data_closed (m : BudgetModel)
    (hin : ∀ g ∈ m.groups, ∀ i ∈ g.2, i < m.categories.length)
    (hlab : (m.groups.map Prod.fst).Nodup) :
    get_table_data m
      = ((m.groups.map (blockOf m)).flatten ++ [subtotalRowOf m]
           ++ m.fees.enum.map (fun q => feeRowOf m q.1 q.2) ++ [grandRowOf m],
         entriesFrom m 0 m.groups) := by
  simp only [get_table_data]
  rw [groupFold_closed m m.groups [] [] hin hlab (fun g _ => rfl)]
  simp only [List.nil_append, List.length_nil]

/-- The category rows of the table are exactly the member category rows of
the groups, in group order. -/
theorem table_category_rows (m : BudgetModel)
    (hin : ∀ g ∈ m.groups, ∀ i ∈ g.2, i < m.categories.length)
    (hlab : (m.groups.map Prod.fst).Nodup) :
    (get_table_data m).1.filter (fun r => r.row_type == "category")
      = (m.groups.flatMap Prod.snd).map (catRowAt m) := by
  rw [get_table_data_closed m hin hlab]
  show ((m.groups.map (blockOf m)).flatten ++ [subtotalRowOf m]
      ++ m.fees.enum.map (fun q => feeRowOf m q.1 q.2)
      ++ [grandRowOf m]).filter (fun r => r.row_type == "category") = _
  have hsub : List.filter (fun r => r.row_type == "category")
      [subtotalRowOf m] = [] := rfl
  have hgrand : List.filter (fun r => r.row_type == "category")
      [grandRowOf m] = [] := rfl
  have hfee : List.filter (fun r => r.row_type == "category")
      (m.fees.enum.map (fun q => feeRowOf m q.1 q.2)) = [] :=
    List.filter_eq_nil_iff.mpr (fun r hr => by
      rcases List.mem_map.mp hr with ⟨q, _, rfl⟩
      rw [show ((feeRowOf m q.1 q.2).row_type == "category")
          = ("fee" == "category") from by rw [feeRowOf_row_type]]
      decide)
  rw [List.filter_append, List.filter_append, List.filter_append, hsub,
    hgrand, hfee, List.append_nil, List.append_nil, List.append_nil]
  rw [List.filter_flatten, List.map_map]
  rw [List.map_congr_left (fun g hg => show
      (List.filter (fun r => r.row_type == "category") ∘ blockOf m) g
        = g.2.map (catRowAt m) from by
    simp only [Function.comp_apply]
    unfold blockOf
    rw [List.filter_append]
    rw [show List.filter (fun r => r.row_type == "category")
        [groupTotalRowOf m g] = [] from rfl]
    rw [List.append_nil]
    refine List.filter_eq_self.mpr (fun r hr => ?_)
    rcases List.mem_map.mp hr with ⟨i, hi, rfl⟩
    rw [catRowAt_in_range m i (hin g hg i hi)]
    rfl)]
  rw [List.flatMap_def, List.map_flatten, List.map_map]
  exact congrArg List.flatten (List.map_congr_left (fun g _ => rfl))

/-- The closed-form mapping entries point at the right rows of any table
whose rows from position base on start with the group blocks. -/
theorem entries_positions (m : BudgetModel) :
    ∀ (gs : List (String × List Nat)) (base : Nat) (data : List TableRow),
      (∀ g ∈ gs, ∀ i ∈ g.2, i < m.categories.length) →
      (gs.map Prod.fst).Nodup →
      (∀ k, k < ((gs.map (blockOf m)).flatten).length →
        data[base + k]? = ((gs.map (blockOf m)).flatten)[k]?) →
      ∀ g ∈ gs, ∃ e, (entriesFrom m base gs).lookup g.1 = some e
        ∧ data[e.total_row]? = some (groupTotalRowOf m g)
        ∧ e.member_rows.length = g.2.length
        ∧ (∀ (j idx : Nat), g.2[j]? = some idx →
            ∃ pos : Nat, e.member_rows[j]? = some pos
              ∧ data[pos]? = some (catRowAt m idx))
  | [], _, _, _, _, _ => by
    intro g hg
    exact absurd hg (List.not_mem_nil g)
  | g0 :: gs, base, data, hin, hnd, hdata => by
    rw [List.map_cons, List.nodup_cons] at hnd
    intro g hg
    have hlen : ((g0 :: gs).map (blockOf m)).flatten.length
        = (blockOf m g0).length + ((gs.map (blockOf m)).flatten).length := by
      rw [List.map_cons, List.flatten_cons, List.length_append]
    have hblen : (blockOf m g0).length = g0.2.length + 1 := by
      simp [blockOf]
    rcases List.mem_cons.mp hg with rfl | hgs
    · refine ⟨⟨(List.range g.2.length).map (fun j => base + j),
               base + g.2.length⟩, ?_, ?_, ?_, ?_⟩
      · simp [entriesFrom, List.lookup]
      · show data[base + g.2.length]? = some (groupTotalRowOf m g)
        have h1 := hdata g.2.length (by rw [hlen, hblen]; omega)
        rw [List.map_cons, List.flatten_cons] at h1
        rw [h1, List.getElem?_append_left (by rw [hblen]; omega)]
        unfold blockOf
        rw [List.getElem?_append_right (by rw [List.length_map]),
          List.length_map, Nat.sub_self]
        rfl
      · show ((List.range g.2.length).map (fun j => base + j)).length
            = g.2.length
        rw [List.length_map, List.length_range]
      · intro j idx hj
        rcases List.getElem?_eq_some.mp hj with ⟨hjlen, _⟩
        refine ⟨base + j, ?_, ?_⟩
        · show ((List.range g.2.length).map (fun j => base + j))[j]?
              = some (base + j)
          rw [List.getElem?_map,
            show (List.range g.2.length)[j]? = some j from by
              simp [List.getElem?_range, hjlen]]
          rfl
        · have h2 := hdata j (by rw [hlen, hblen]; omega)
          rw [List.map_cons, List.flatten_cons] at h2
          rw [h2, List.getElem?_append_left (by rw [hblen]; omega)]
          unfold blockOf
          rw [List.getElem?_append_left (by rw [List.length_map]; omega),
            List.getElem?_map, hj]
          rfl
    · have hneq : (g.1 == g0.1) = false := by
        rw [beq_eq_false_iff_ne]
        intro hbad
        exact hnd.1 (by rw [← hbad]; exact List.mem_map_of_mem Prod.fst hgs)
      have hIH := entries_positions m gs (base + g0.2.length + 1) data
        (fun g2 h2 => hin g2 (List.mem_cons_of_mem g0 h2)) hnd.2
        (fun k hk => by
          have h3 := hdata (g0.2.length + 1 + k) (by rw [hlen, hblen]; omega)
          rw [List.map_cons, List.flatten_cons] at h3
          rw [show base + g0.2.length + 1 + k = base + (g0.2.length + 1 + k)
              from by omega, h3,
            List.getElem?_append_right (by rw [hblen]; omega), hblen]
          congr 1
          omega)
        g hgs
      rcases hIH with ⟨e, hlk, rest⟩
      refine ⟨e, ?_, rest⟩
      simp only [entriesFrom, List.lookup, hneq]
      exact hlk

/-- C9: with in-range member indices, distinct group labels, and groups
covering each category index exactly once, get_table_data emits the group
blocks in order (each group's member category rows immediately followed by
its group-total row), then the subtotal row, one row per fee, and the
grand-total row; the category rows carry each category index exactly once;
and the mapping sends every group label to the positions of its member
rows and of its total row. -/
theorem C9_table_projection (m : BudgetModel)
    (hin : ∀ g ∈ m.groups, ∀ i ∈ g.2, i < m.categories.length)
    (hlab : (m.groups.map Prod.fst).Nodup)
    (hcover : (m.groups.flatMap Prod.snd).Perm
      (List.range m.categories.length)) :
    (get_table_data m).1
      = (m.groups.map (blockOf m)).flatten ++ [subtotalRowOf m]
          ++ m.fees.enum.map (fun q => feeRowOf m q.1 q.2) ++ [grandRowOf m]
    ∧ (((get_table_data m).1.filter
          (fun r => r.row_type == "category")).map
            (fun r => r.cat_index)).Perm
        ((List.range m.categories.length).map some)
    ∧ ∀ g ∈ m.groups, ∃ e,
        (get_table_data m).2.lookup g.1 = some e
        ∧ (get_table_data m).1[e.total_row]? = some (groupTotalRowOf m g)
        ∧ e.member_rows.length = g.2.length
        ∧ ∀ (j idx : Nat), g.2[j]? = some idx →
            ∃ pos : Nat, e.member_rows[j]? = some pos
              ∧ (get_table_data m).1[pos]? = some (catRowAt m idx) := by
  have hclosed := get_table_data_closed m hin hlab
  refine ⟨?_, ?_, ?_⟩
  · rw [hclosed]
  · rw [table_category_rows m hin hlab, List.map_map]
    have hmc : (m.groups.flatMap Prod.snd).map
          ((fun r => r.cat_index) ∘ catRowAt m)
        = (m.groups.flatMap Prod.snd).map some :=
      List.map_congr_left (fun i hi => by
        simp only [Function.comp_apply]
        rcases List.mem_flatMap.mp hi with ⟨g, hg, hig⟩
        rw [catRowAt_in_range m i (hin g hg i hig)]
        rfl)
    rw [hmc]
    exact hcover.map some
  · intro g hg
    have hfst : (get_table_data m).1
        = (m.groups.map (blockOf m)).flatten ++ [subtotalRowOf m]
          ++ m.fees.enum.map (fun q => feeRowOf m q.1 q.2)
          ++ [grandRowOf m] := congrArg Prod.fst hclosed
    have h := entries_positions m m.groups 0 (get_table_data m).1 hin hlab
      (fun k hk => by
        rw [hfst, show (0 : Nat) + k = k from by omega,
          List.getElem?_append_left (by
            rw [List.length_append, List.length_append]
            omega),
          List.getElem?_append_left (by
            rw [List.length_append]
            omega),
          List.getElem?_append_left hk])
      g hg
    rcases h with ⟨e, hlk, h2, h3, h4⟩
    refine ⟨e, ?_, h2, h3, h4⟩
    rw [show (get_table_data m).2 = entriesFrom m 0 m.groups
      from congrArg Prod.snd hclosed]
    exact hlk

/-- Witness for C9: two categories fully covered by two distinct-label
groups; the hypotheses hold by computation and the projection has the
claimed ordered shape. -/
theorem C9_table_projection_witness :
    (∀ g ∈ demoC9W.groups, ∀ i ∈ g.2, i < demoC9W.categories.length)
    ∧ (demoC9W.groups.map Prod.fst).Nodup
    ∧ (demoC9W.groups.flatMap Prod.snd).Perm
        (List.range demoC9W.categories.length)
    ∧ (get_table_data demoC9W).1
        = (demoC9W.groups.map (blockOf demoC9W)).flatten
            ++ [subtotalRowOf demoC9W]
            ++ demoC9W.fees.enum.map (fun q => feeRowOf demoC9W q.1 q.2)
            ++ [grandRowOf demoC9W] :=
  ⟨by decide, by decide, by decide,
    (C9_table_projection demoC9W (by decide) (by decide) (by decide)).1⟩

/-- Counterexample to the unrestricted claim: a category not covered by
any group gets no category row, so there is not one category row per
category. -/
theorem C9_counterexample :
    ((get_table_data demoC9).1.filter
        (fun r => r.row_type == "category")).length
      ≠ demoC9.categories.length := by
  decide

end TopSheet
